import Mathlib

/-!
Verification development for the groupcache coordination core
(`singleflight/singleflight.go` and `http.go`).

Part 1 models the singleflight flight group as a small-step state machine:
each thread executing `Group.Do(key, fn)` advances through the atomic
actions that the Go code performs under (or between) critical sections of
the group mutex.  Call records, the key-to-call map (an association list,
mirroring the Go map `g.m`) and thread program counters form the global
state; loader behaviour is prescribed per thread by a `LoaderOutcome`
oracle (either the loader returns a value/error pair, or it panics).

Part 2 embeds the HTTP peer layer (`http.go`) as pure functions over
oracle inputs for the network round-trip, body reads and protobuf
decoding.
-/

namespace Singleflight

abbrev Key := String

/-- Errors produced by loaders and stored in `call.err`.  The Go code
pre-seeds `c.err` with `errors.Errorf("singleflight leader panicked")`;
that sentinel is a distinguished constructor here.  `none` at the use
sites models a nil Go error. -/
inductive FErr where
  | sentinelLeaderPanicked
  | user (n : Nat)
deriving DecidableEq, Repr

/-- Prescribed behaviour of one thread's loader `fn`: it either returns a
(value, error) pair, or it panics without returning. -/
inductive LoaderOutcome where
  | returns (v : Option Nat) (e : Option FErr)
  | panics
deriving DecidableEq, Repr

/-- Program counter of a thread inside `Group.Do`, one position per atomic
action of the Go source:
* `start`: before the first critical section (lines 47-62);
* `waiting cid`: follower blocked in `c.wg.Wait()` (line 53);
* `doneFollower cid v e`: follower returned `c.val, c.err` (line 54);
* `running cid`: leader executing `fn()` with the lock released (line 71);
* `stored cid`: leader stored `c.val, c.err = fn()` (line 71);
* `panicking cid`: `fn()` panicked, deferred cleanup still to run;
* `deferring cid p`: `c.wg.Done()` executed (line 65), delete pending;
* `doneLeader cid v e`: leader returned normally (line 72) after the
  deferred `delete(g.m, key)` (line 67);
* `panickedOut cid`: cleanup ran and the panic propagated out of `Do`. -/
inductive Phase where
  | start
  | waiting (cid : Nat)
  | doneFollower (cid : Nat) (v : Option Nat) (e : Option FErr)
  | running (cid : Nat)
  | stored (cid : Nat)
  | panicking (cid : Nat)
  | deferring (cid : Nat) (panicked : Bool)
  | doneLeader (cid : Nat) (v : Option Nat) (e : Option FErr)
  | panickedOut (cid : Nat)
deriving DecidableEq, Repr

/-- The `call` struct of singleflight.go (lines 28-33), plus the ghost
fields `key` (the key it was inserted under) and `leader` (index of the
thread that created it).  `done` models the `sync.WaitGroup` having been
signalled (`wg.Done()`). -/
structure Call where
  key : Key
  leader : Nat
  created : Nat
  val : Option Nat
  err : Option FErr
  done : Bool
deriving DecidableEq, Repr

/-- One thread executing `Group.Do key fn`; `ran` is a ghost flag set
exactly when this thread's loader `fn` executes. -/
structure Thread where
  key : Key
  outcome : LoaderOutcome
  phase : Phase
  ran : Bool
deriving DecidableEq, Repr

/-- Global state: `m` is the Go map `g.m` as an association list from key
to call id, `calls` the allocated call records (call id = index), `threads`
the threads, `time` a logical clock read by `time.Now()`. -/
structure GState where
  m : List (Key × Nat)
  calls : List Call
  threads : List Thread
  time : Nat
deriving DecidableEq, Repr

def GState.setThread (s : GState) (t : Nat) (th : Thread) : GState :=
  { s with threads := s.threads.set t th }

def GState.setCall (s : GState) (cid : Nat) (c : Call) : GState :=
  { s with calls := s.calls.set cid c }

/-- Small-step relation: one atomic action of one thread (or a clock
tick).  Each constructor mirrors the corresponding lines of
`Group.Do` in singleflight.go. -/
inductive Step : GState → GState → Prop where
  /-- Lines 51-53: the map holds a call for this key; attach to it. -/
  | enterHit (s : GState) (t : Nat) (th : Thread) (cid : Nat)
      (hth : s.threads[t]? = some th) (hph : th.phase = .start)
      (hm : s.m.lookup th.key = some cid) :
      Step s (s.setThread t { th with phase := .waiting cid })
  /-- Lines 56-62: no call for this key; create one (error pre-seeded to
  the sentinel, timestamp `time.Now()`), insert it, become leader. -/
  | enterMiss (s : GState) (t : Nat) (th : Thread)
      (hth : s.threads[t]? = some th) (hph : th.phase = .start)
      (hm : s.m.lookup th.key = none) :
      Step s { m := (th.key, s.calls.length) :: s.m,
               calls := s.calls ++ [{ key := th.key, leader := t,
                                      created := s.time, val := none,
                                      err := some .sentinelLeaderPanicked,
                                      done := false }],
               threads := s.threads.set t { th with phase := .running s.calls.length },
               time := s.time }
  /-- Line 71: the loader returns; store `c.val, c.err = fn()`. -/
  | finishOk (s : GState) (t : Nat) (th : Thread) (cid : Nat) (c : Call)
      (v : Option Nat) (e : Option FErr)
      (hth : s.threads[t]? = some th) (hph : th.phase = .running cid)
      (hout : th.outcome = .returns v e) (hc : s.calls[cid]? = some c) :
      Step s ((s.setCall cid { c with val := v, err := e }).setThread t
                { th with phase := .stored cid, ran := true })
  /-- Line 71: the loader panics instead of returning; `c.val`/`c.err`
  keep their pre-seeded values. -/
  | startPanic (s : GState) (t : Nat) (th : Thread) (cid : Nat)
      (hth : s.threads[t]? = some th) (hph : th.phase = .running cid)
      (hout : th.outcome = .panics) :
      Step s (s.setThread t { th with phase := .panicking cid, ran := true })
  /-- Line 65 (`c.wg.Done()`) on the normal path: the completion signal
  fires. -/
  | wgDoneOk (s : GState) (t : Nat) (th : Thread) (cid : Nat) (c : Call)
      (hth : s.threads[t]? = some th) (hph : th.phase = .stored cid)
      (hc : s.calls[cid]? = some c) :
      Step s ((s.setCall cid { c with done := true }).setThread t
                { th with phase := .deferring cid false })
  /-- Line 65 on the panic path: deferred functions run even on panic, so
  the completion signal still fires. -/
  | wgDonePanic (s : GState) (t : Nat) (th : Thread) (cid : Nat) (c : Call)
      (hth : s.threads[t]? = some th) (hph : th.phase = .panicking cid)
      (hc : s.calls[cid]? = some c) :
      Step s ((s.setCall cid { c with done := true }).setThread t
                { th with phase := .deferring cid true })
  /-- Lines 66-68 and 72: `delete(g.m, key)`, then return `c.val, c.err`. -/
  | removeOk (s : GState) (t : Nat) (th : Thread) (cid : Nat) (c : Call)
      (hth : s.threads[t]? = some th) (hph : th.phase = .deferring cid false)
      (hc : s.calls[cid]? = some c) :
      Step s { (s.setThread t { th with phase := .doneLeader cid c.val c.err }) with
               m := s.m.eraseP (fun ent => ent.1 == th.key) }
  /-- Lines 66-68 on the panic path: the entry is still deleted, then the
  panic continues to propagate out of `Do`. -/
  | removePanic (s : GState) (t : Nat) (th : Thread) (cid : Nat)
      (hth : s.threads[t]? = some th) (hph : th.phase = .deferring cid true) :
      Step s { (s.setThread t { th with phase := .panickedOut cid }) with
               m := s.m.eraseP (fun ent => ent.1 == th.key) }
  /-- Lines 53-54: `c.wg.Wait()` unblocks once the signal fired; the
  follower returns the call's stored `c.val, c.err`. -/
  | waitRet (s : GState) (t : Nat) (th : Thread) (cid : Nat) (c : Call)
      (hth : s.threads[t]? = some th) (hph : th.phase = .waiting cid)
      (hc : s.calls[cid]? = some c) (hd : c.done = true) :
      Step s (s.setThread t { th with phase := .doneFollower cid c.val c.err })
  /-- The wall clock advances. -/
  | tick (s : GState) : Step s { s with time := s.time + 1 }

/-- Initial state: every thread is about to call `Do` with its key and
prescribed loader behaviour; the map and call table are empty. -/
def initState (ths : List (Key × LoaderOutcome)) : GState :=
  { m := [],
    calls := [],
    threads := ths.map (fun p => { key := p.1, outcome := p.2,
                                   phase := .start, ran := false }),
    time := 1 }

def Reachable (ths : List (Key × LoaderOutcome)) (s : GState) : Prop :=
  Relation.ReflTransGen Step (initState ths) s

/-! Helper lemmas about association lists. -/

theorem lookup_some_mem {l : List (Key × Nat)} {k : Key} {v : Nat}
    (h : l.lookup k = some v) : (k, v) ∈ l := by
  induction l with
  | nil => simp [List.lookup] at h
  | cons hd tl ih =>
    rw [List.lookup] at h
    by_cases hk : k == hd.1
    · simp [hk] at h
      rw [List.mem_cons]
      left
      cases hd
      simp at hk ⊢
      exact ⟨hk, h.symm⟩
    · simp [hk] at h
      exact List.mem_cons_of_mem _ (ih h)

theorem lookup_none_not_mem {l : List (Key × Nat)} {k : Key} {v : Nat}
    (h : l.lookup k = none) (hm : (k, v) ∈ l) : False := by
  induction l with
  | nil => simp at hm
  | cons hd tl ih =>
    rw [List.lookup] at h
    by_cases hk : k == hd.1
    · simp [hk] at h
    · rcases List.mem_cons.mp hm with h1 | h2
      · subst h1; simp at hk
      · simp [hk] at h
        exact h k v h2 rfl

theorem mem_eraseP_of_ne {l : List (Key × Nat)} {ent : Key × Nat} {k : Key}
    (hm : ent ∈ l) (hne : ent.1 ≠ k) :
    ent ∈ l.eraseP (fun e => e.1 == k) := by
  induction l with
  | nil => simp at hm
  | cons hd tl ih =>
    rw [List.eraseP_cons]
    rcases List.mem_cons.mp hm with h1 | h2
    · subst h1
      have : (ent.1 == k) = false := beq_false_of_ne hne
      simp [this]
    · by_cases hhd : (hd.1 == k) = true
      · simp [hhd]; exact h2
      · simp at hhd
        simp [beq_false_of_ne hhd]
        exact Or.inr (ih h2)

theorem eraseP_key_not_mem {l : List (Key × Nat)} {k : Key}
    (hnd : (l.map Prod.fst).Nodup) {ent : Key × Nat}
    (hm : ent ∈ l.eraseP (fun e => e.1 == k)) : ent.1 ≠ k := by
  induction l with
  | nil => simp at hm
  | cons hd tl ih =>
    rw [List.map_cons, List.nodup_cons] at hnd
    rw [List.eraseP_cons] at hm
    by_cases hhd : (hd.1 == k) = true
    · simp [hhd] at hm
      intro hk
      simp at hhd
      exact hnd.1 (by
        subst hk
        rw [hhd]
        exact List.mem_map_of_mem Prod.fst hm)
    · simp [hhd] at hm
      rcases hm with h1 | h2
      · subst h1
        simpa using hhd
      · exact ih hnd.2 h2

/-! The inductive invariant. -/

/-- `leadsTo ph cid`: the phase `ph` marks its thread as the leader of
call `cid` (the thread created the call and has not yet finished `Do`,
or has finished it as that call's leader). -/
def leadsTo (ph : Phase) (cid : Nat) : Prop :=
  match ph with
  | .running c => c = cid
  | .stored c => c = cid
  | .panicking c => c = cid
  | .deferring c _ => c = cid
  | .doneLeader c _ _ => c = cid
  | .panickedOut c => c = cid
  | _ => False

/-- Per-call invariant: the call's ghost `leader` indexes a real thread
whose phase and loader outcome determine the call's fields exactly as the
Go code sets them along the leader's path through `Do`. -/
def callOk (s : GState) (cid : Nat) (c : Call) : Prop :=
  ∃ th, s.threads[c.leader]? = some th ∧ th.key = c.key ∧
    ((th.phase = .running cid ∧ c.val = none ∧
        c.err = some .sentinelLeaderPanicked ∧ c.done = false ∧
        th.ran = false ∧ (c.key, cid) ∈ s.m)
     ∨ (th.phase = .stored cid ∧ th.outcome = .returns c.val c.err ∧
        c.done = false ∧ th.ran = true ∧ (c.key, cid) ∈ s.m)
     ∨ (th.phase = .panicking cid ∧ th.outcome = .panics ∧ c.val = none ∧
        c.err = some .sentinelLeaderPanicked ∧ c.done = false ∧
        th.ran = true ∧ (c.key, cid) ∈ s.m)
     ∨ (∃ b, th.phase = .deferring cid b ∧ c.done = true ∧ th.ran = true ∧
        (c.key, cid) ∈ s.m ∧
        (if b then th.outcome = .panics ∧ c.val = none ∧
                   c.err = some .sentinelLeaderPanicked
         else th.outcome = .returns c.val c.err))
     ∨ (th.phase = .doneLeader cid c.val c.err ∧
        th.outcome = .returns c.val c.err ∧ c.done = true ∧ th.ran = true ∧
        (∀ ent ∈ s.m, ent.2 ≠ cid))
     ∨ (th.phase = .panickedOut cid ∧ th.outcome = .panics ∧ c.val = none ∧
        c.err = some .sentinelLeaderPanicked ∧ c.done = true ∧
        th.ran = true ∧ (∀ ent ∈ s.m, ent.2 ≠ cid)))

/-- Per-thread invariant: followers never run a loader and report exactly
the call's stored result; leader phases point back to their call. -/
def threadOk (s : GState) (t : Nat) (th : Thread) : Prop :=
  (th.phase = .start → th.ran = false)
  ∧ (∀ cid, th.phase = .waiting cid →
      th.ran = false ∧ ∃ c, s.calls[cid]? = some c)
  ∧ (∀ cid v e, th.phase = .doneFollower cid v e →
      th.ran = false ∧ ∃ c, s.calls[cid]? = some c ∧ c.done = true ∧
        c.val = v ∧ c.err = e)
  ∧ (∀ cid, leadsTo th.phase cid →
      ∃ c, s.calls[cid]? = some c ∧ c.leader = t)

structure Inv (s : GState) : Prop where
  nodupKeys : (s.m.map Prod.fst).Nodup
  mValid : ∀ k cid, (k, cid) ∈ s.m → ∃ c, s.calls[cid]? = some c ∧ c.key = k
  calls_ok : ∀ cid c, s.calls[cid]? = some c → callOk s cid c
  threads_ok : ∀ t th, s.threads[t]? = some th → threadOk s t th

theorem get_set_same {α : Type} {l : List α} {i : Nat} {x a : α}
    (h : l[i]? = some x) : (l.set i a)[i]? = some a :=
  List.getElem?_set_eq_of_lt a (List.getElem?_eq_some.mp h).1

theorem get_set_diff {α : Type} {l : List α} {i j : Nat} {a : α}
    (h : i ≠ j) : (l.set i a)[j]? = l[j]? := List.getElem?_set_ne h

theorem getElem?_append_some {α : Type} {l : List α} {a x : α} {i : Nat}
    (h : l[i]? = some x) : (l ++ [a])[i]? = some x := by
  rw [List.getElem?_append_left (List.getElem?_eq_some.mp h).1]
  exact h

theorem concat_getElem?_cases {α : Type} {l : List α} {a x : α} {i : Nat}
    (h : (l ++ [a])[i]? = some x) :
    (i < l.length ∧ l[i]? = some x) ∨ (i = l.length ∧ x = a) := by
  have hi := (List.getElem?_eq_some.mp h).1
  rw [List.length_append] at hi
  rcases Nat.lt_or_ge i l.length with hlt | hge
  · left
    refine ⟨hlt, ?_⟩
    rw [List.getElem?_append_left hlt] at h
    exact h
  · right
    have hieq : i = l.length := by
      simp at hi
      omega
    subst hieq
    rw [List.getElem?_concat_length] at h
    exact ⟨rfl, (Option.some.inj h).symm⟩

theorem not_mem_keys_of_lookup_none {l : List (Key × Nat)} {k : Key}
    (h : l.lookup k = none) : k ∉ l.map Prod.fst := by
  intro hk
  obtain ⟨⟨k', v⟩, hent, hfst⟩ := List.mem_map.mp hk
  simp at hfst
  subst hfst
  exact lookup_none_not_mem h hent

theorem mem_keys_unique {l : List (Key × Nat)} (hnd : (l.map Prod.fst).Nodup)
    {k : Key} {a b : Nat} (ha : (k, a) ∈ l) (hb : (k, b) ∈ l) : a = b := by
  induction l with
  | nil => simp at ha
  | cons hd tl ih =>
    rw [List.map_cons, List.nodup_cons] at hnd
    rcases List.mem_cons.mp ha with h1 | h1 <;> rcases List.mem_cons.mp hb with h2 | h2
    · rw [← h1] at h2
      exact (Prod.mk.injEq _ _ _ _ ▸ h2).2.symm
    · exfalso
      apply hnd.1
      rw [← h1]
      simpa using List.mem_map_of_mem Prod.fst h2
    · exfalso
      apply hnd.1
      rw [← h2]
      simpa using List.mem_map_of_mem Prod.fst h1
    · exact ih hnd.2 h1 h2

/-- Two leader phases for the same call id belong to the same thread. -/
theorem leader_unique {s : GState} (inv : Inv s) {t t' : Nat}
    {th th' : Thread} {cid : Nat}
    (ht : s.threads[t]? = some th) (hl : leadsTo th.phase cid)
    (ht' : s.threads[t']? = some th') (hl' : leadsTo th'.phase cid) :
    t = t' := by
  obtain ⟨c, hc, hcl⟩ := (inv.threads_ok t th ht).2.2.2 cid hl
  obtain ⟨c', hc', hcl'⟩ := (inv.threads_ok t' th' ht').2.2.2 cid hl'
  rw [hc] at hc'
  cases hc'
  rw [← hcl, hcl']

@[simp] theorem setThread_m (s : GState) (t : Nat) (th : Thread) :
    (s.setThread t th).m = s.m := rfl
@[simp] theorem setThread_calls (s : GState) (t : Nat) (th : Thread) :
    (s.setThread t th).calls = s.calls := rfl
@[simp] theorem setThread_threads (s : GState) (t : Nat) (th : Thread) :
    (s.setThread t th).threads = s.threads.set t th := rfl
@[simp] theorem setCall_m (s : GState) (cid : Nat) (c : Call) :
    (s.setCall cid c).m = s.m := rfl
@[simp] theorem setCall_calls (s : GState) (cid : Nat) (c : Call) :
    (s.setCall cid c).calls = s.calls.set cid c := rfl
@[simp] theorem setCall_threads (s : GState) (cid : Nat) (c : Call) :
    (s.setCall cid c).threads = s.threads := rfl

/-- `threadOk` only inspects the call table, and is monotone under
extensions of it. -/
theorem threadOk_of_calls_mono {s s' : GState} {t : Nat} {th : Thread}
    (hmono : ∀ (i : Nat) (x : Call), s.calls[i]? = some x → s'.calls[i]? = some x)
    (h : threadOk s t th) : threadOk s' t th := by
  obtain ⟨h1, h2, h3, h4⟩ := h
  refine ⟨h1, ?_, ?_, ?_⟩
  · intro cid hw
    obtain ⟨hr, c, hc⟩ := h2 cid hw
    exact ⟨hr, c, hmono _ _ hc⟩
  · intro cid v e hd
    obtain ⟨hr, c, hc, h5, h6, h7⟩ := h3 cid v e hd
    exact ⟨hr, c, hmono _ _ hc, h5, h6, h7⟩
  · intro cid hl
    obtain ⟨c, hc, hcl⟩ := h4 cid hl
    exact ⟨c, hmono _ _ hc, hcl⟩

/-- Every call's leader thread is in a phase that `leadsTo` the call. -/
theorem leadsTo_of_callOk {s : GState} {cid : Nat} {c : Call}
    (h : callOk s cid c) :
    ∃ th, s.threads[c.leader]? = some th ∧ leadsTo th.phase cid := by
  obtain ⟨th, hth, _, hbr⟩ := h
  refine ⟨th, hth, ?_⟩
  rcases hbr with ⟨hp, _⟩ | ⟨hp, _⟩ | ⟨hp, _⟩ | ⟨b, hp, _⟩ | ⟨hp, _⟩ | ⟨hp, _⟩ <;>
    rw [hp] <;> exact rfl

/-- `callOk` transports to a state with the same map and the same thread
at the call's leader index (the call record itself unchanged). -/
theorem callOk_of_eq {s s' : GState} {cid : Nat} {c : Call}
    (h : callOk s cid c) (hm : s'.m = s.m)
    (hthr : s'.threads[c.leader]? = s.threads[c.leader]?) : callOk s' cid c := by
  obtain ⟨th, hth, hkey, hbr⟩ := h
  refine ⟨th, by rw [hthr]; exact hth, hkey, ?_⟩
  rw [hm]
  exact hbr

theorem inv_step {s s' : GState} (inv : Inv s) (h : Step s s') : Inv s' := by
  cases h with
  | enterHit t th cid hth hph hm =>
    refine ⟨?_, ?_, ?_, ?_⟩
    · simpa using inv.nodupKeys
    · intro k cid' hmem
      exact inv.mValid k cid' hmem
    · intro cid' c hc
      obtain ⟨th₁, hth₁, hkey, hbr⟩ := inv.calls_ok cid' c hc
      by_cases hl : c.leader = t
      · exfalso
        rw [hl, hth] at hth₁
        cases hth₁
        rcases hbr with ⟨hp, _⟩ | ⟨hp, _⟩ | ⟨hp, _⟩ | ⟨b, hp, _⟩ | ⟨hp, _⟩ | ⟨hp, _⟩ <;>
          rw [hph] at hp <;> cases hp
      · refine ⟨th₁, ?_, hkey, hbr⟩
        simp only [setThread_threads]
        rw [get_set_diff (Ne.symm hl)]
        exact hth₁
    · intro t' th' hth'
      by_cases heq : t' = t
      · subst heq
        simp only [setThread_threads] at hth'
        rw [get_set_same hth] at hth'
        cases hth'
        have hran := (inv.threads_ok t' th hth).1 hph
        refine ⟨?_, ?_, ?_, ?_⟩
        · intro hst; cases hst
        · intro cid' hw
          cases hw
          refine ⟨hran, ?_⟩
          obtain ⟨c, hc, _⟩ :=
            inv.mValid th.key cid (lookup_some_mem hm)
          exact ⟨c, hc⟩
        · intro cid' v e hd; cases hd
        · intro cid' hl; cases hl
      · simp only [setThread_threads] at hth'
        rw [get_set_diff (Ne.symm heq)] at hth'
        exact inv.threads_ok t' th' hth'
  | tick =>
    exact ⟨inv.nodupKeys, inv.mValid, inv.calls_ok, inv.threads_ok⟩
  | enterMiss t th hth hph hm =>
    have hran := (inv.threads_ok t th hth).1 hph
    refine ⟨?_, ?_, ?_, ?_⟩
    · simp only [List.map_cons, List.nodup_cons]
      exact ⟨not_mem_keys_of_lookup_none hm, inv.nodupKeys⟩
    · intro k cid' hmem
      rcases List.mem_cons.mp hmem with h1 | h1
      · obtain ⟨hk, hcid⟩ := Prod.mk.injEq _ _ _ _ ▸ h1
        subst hk
        subst hcid
        exact ⟨_, by rw [List.getElem?_concat_length], rfl⟩
      · obtain ⟨c, hcold, hckey⟩ := inv.mValid k cid' h1
        exact ⟨c, getElem?_append_some hcold, hckey⟩
    · intro cid' c hc
      rcases concat_getElem?_cases hc with ⟨hlt, hcold⟩ | ⟨hceq, hcnew⟩
      · obtain ⟨th₁, hth₁, hkey, hbr⟩ := inv.calls_ok cid' c hcold
        by_cases hl : c.leader = t
        · exfalso
          rw [hl, hth] at hth₁
          cases hth₁
          rcases hbr with ⟨hp, _⟩ | ⟨hp, _⟩ | ⟨hp, _⟩ | ⟨b, hp, _⟩ | ⟨hp, _⟩ | ⟨hp, _⟩ <;>
            rw [hph] at hp <;> cases hp
        · refine ⟨th₁, ?_, hkey, ?_⟩
          · show (s.threads.set t _)[c.leader]? = some th₁
            rw [get_set_diff (Ne.symm hl)]
            exact hth₁
          · rcases hbr with ⟨hp, h2, h3, h4, h5, h6⟩ | ⟨hp, h2, h3, h4, h5⟩ |
              ⟨hp, h2, h3, h4, h5, h6, h7⟩ | ⟨b, hp, h2, h3, h4, h5⟩ |
              ⟨hp, h2, h3, h4, h5⟩ | ⟨hp, h2, h3, h4, h5, h6, h7⟩
            · exact Or.inl ⟨hp, h2, h3, h4, h5, List.mem_cons_of_mem _ h6⟩
            · exact Or.inr (Or.inl ⟨hp, h2, h3, h4, List.mem_cons_of_mem _ h5⟩)
            · exact Or.inr (Or.inr (Or.inl ⟨hp, h2, h3, h4, h5, h6,
                List.mem_cons_of_mem _ h7⟩))
            · exact Or.inr (Or.inr (Or.inr (Or.inl ⟨b, hp, h2, h3,
                List.mem_cons_of_mem _ h4, h5⟩)))
            · refine Or.inr (Or.inr (Or.inr (Or.inr (Or.inl ⟨hp, h2, h3, h4, ?_⟩))))
              intro ent hent
              rcases List.mem_cons.mp hent with he | he
              · rw [he]
                intro habs
                simp at habs
                omega
              · exact h5 ent he
            · refine Or.inr (Or.inr (Or.inr (Or.inr (Or.inr
                ⟨hp, h2, h3, h4, h5, h6, ?_⟩))))
              intro ent hent
              rcases List.mem_cons.mp hent with he | he
              · rw [he]
                intro habs
                simp at habs
                omega
              · exact h7 ent he
      · subst hceq
        subst hcnew
        refine ⟨{ th with phase := .running s.calls.length }, ?_, rfl, ?_⟩
        · show (s.threads.set t _)[t]? = _
          exact get_set_same hth
        · exact Or.inl ⟨rfl, rfl, rfl, rfl, hran, List.mem_cons_self _ _⟩
    · intro t' th' hth'
      by_cases heq : t' = t
      · subst heq
        show threadOk _ t' th'
        replace hth' : (s.threads.set t' _)[t']? = some th' := hth'
        rw [get_set_same hth] at hth'
        cases hth'
        refine ⟨fun hst => Phase.noConfusion hst,
                fun cid' hw => Phase.noConfusion hw,
                fun cid' v' e' hd => Phase.noConfusion hd, ?_⟩
        intro cid' hl
        have hcc : s.calls.length = cid' := hl
        subst hcc
        exact ⟨_, by rw [List.getElem?_concat_length], rfl⟩
      · replace hth' : (s.threads.set t _)[t']? = some th' := hth'
        rw [get_set_diff (Ne.symm heq)] at hth'
        exact threadOk_of_calls_mono (fun i x hx => getElem?_append_some hx)
          (inv.threads_ok t' th' hth')
  | finishOk t th cid c v e hth hph hout hc =>
    have hlt : leadsTo th.phase cid := by rw [hph]; exact rfl
    obtain ⟨c', hc', hlead⟩ := (inv.threads_ok t th hth).2.2.2 cid hlt
    rw [hc] at hc'
    cases hc'
    obtain ⟨th₁, hth₁, hkey, hbr⟩ := inv.calls_ok cid c hc
    rw [hlead, hth] at hth₁
    cases hth₁
    have hrun : c.val = none ∧ c.err = some .sentinelLeaderPanicked ∧
        c.done = false ∧ th.ran = false ∧ (c.key, cid) ∈ s.m := by
      rcases hbr with ⟨hp, h2, h3, h4, h5, h6⟩ | ⟨hp, _⟩ | ⟨hp, _⟩ |
        ⟨b, hp, _⟩ | ⟨hp, _⟩ | ⟨hp, _⟩
      · exact ⟨h2, h3, h4, h5, h6⟩
      all_goals rw [hph] at hp
      all_goals exact Phase.noConfusion hp
    obtain ⟨hval, herr, hdone, hranf, hmem⟩ := hrun
    refine ⟨?_, ?_, ?_, ?_⟩
    · exact inv.nodupKeys
    · intro k cid' hmem'
      obtain ⟨c₂, hc₂, hckey⟩ := inv.mValid k cid' hmem'
      by_cases hcc : cid' = cid
      · subst hcc
        rw [hc] at hc₂
        cases hc₂
        refine ⟨{ c with val := v, err := e }, ?_, hckey⟩
        show (s.calls.set cid' _)[cid']? = _
        exact get_set_same hc
      · refine ⟨c₂, ?_, hckey⟩
        show (s.calls.set cid _)[cid']? = _
        rw [get_set_diff (Ne.symm hcc)]
        exact hc₂
    · intro cid' c₂ hc₂
      replace hc₂ : (s.calls.set cid _)[cid']? = some c₂ := hc₂
      by_cases hcc : cid' = cid
      · subst hcc
        rw [get_set_same hc] at hc₂
        cases hc₂
        refine ⟨{ th with phase := .stored cid', ran := true }, ?_, hkey, ?_⟩
        · show (s.threads.set t _)[c.leader]? = _
          rw [hlead]
          exact get_set_same hth
        · exact Or.inr (Or.inl ⟨rfl, hout, hdone, rfl, hmem⟩)
      · rw [get_set_diff (Ne.symm hcc)] at hc₂
        have hco := inv.calls_ok cid' c₂ hc₂
        obtain ⟨th₁', hth₁', hl₁'⟩ := leadsTo_of_callOk hco
        by_cases hl2 : c₂.leader = t
        · exfalso
          rw [hl2, hth] at hth₁'
          cases hth₁'
          rw [hph] at hl₁'
          exact hcc (Eq.symm hl₁')
        · refine callOk_of_eq hco rfl ?_
          show (s.threads.set t _)[c₂.leader]? = _
          rw [get_set_diff (Ne.symm hl2)]
    · intro t' th' hth'
      replace hth' : (s.threads.set t _)[t']? = some th' := hth'
      by_cases heq : t' = t
      · subst heq
        rw [get_set_same hth] at hth'
        cases hth'
        refine ⟨fun hst => Phase.noConfusion hst,
                fun cid' hw => Phase.noConfusion hw,
                fun cid' v' e' hd => Phase.noConfusion hd, ?_⟩
        intro cid' hl
        have hcc : cid = cid' := hl
        subst hcc
        refine ⟨{ c with val := v, err := e }, ?_, hlead⟩
        show (s.calls.set cid _)[cid]? = _
        exact get_set_same hc
      · rw [get_set_diff (Ne.symm heq)] at hth'
        obtain ⟨h1, h2, h3, h4⟩ := inv.threads_ok t' th' hth'
        refine ⟨h1, ?_, ?_, ?_⟩
        · intro cid' hw
          obtain ⟨hr, c₃, hc₃⟩ := h2 cid' hw
          by_cases hcc : cid' = cid
          · subst hcc
            refine ⟨hr, { c with val := v, err := e }, ?_⟩
            show (s.calls.set cid' _)[cid']? = _
            exact get_set_same hc
          · refine ⟨hr, c₃, ?_⟩
            show (s.calls.set cid _)[cid']? = _
            rw [get_set_diff (Ne.symm hcc)]
            exact hc₃
        · intro cid' v' e' hd
          obtain ⟨hr, c₃, hc₃, hd₃, hv₃, he₃⟩ := h3 cid' v' e' hd
          by_cases hcc : cid' = cid
          · subst hcc
            rw [hc] at hc₃
            cases hc₃
            rw [hdone] at hd₃
            exact Bool.noConfusion hd₃
          · refine ⟨hr, c₃, ?_, hd₃, hv₃, he₃⟩
            show (s.calls.set cid _)[cid']? = _
            rw [get_set_diff (Ne.symm hcc)]
            exact hc₃
        · intro cid' hl
          obtain ⟨c₃, hc₃, hcl₃⟩ := h4 cid' hl
          by_cases hcc : cid' = cid
          · subst hcc
            rw [hc] at hc₃
            cases hc₃
            rw [hlead] at hcl₃
            exact absurd hcl₃.symm heq
          · refine ⟨c₃, ?_, hcl₃⟩
            show (s.calls.set cid _)[cid']? = _
            rw [get_set_diff (Ne.symm hcc)]
            exact hc₃
  | startPanic t th cid hth hph hout =>
    have hlt : leadsTo th.phase cid := by rw [hph]; exact rfl
    obtain ⟨c, hc, hlead⟩ := (inv.threads_ok t th hth).2.2.2 cid hlt
    obtain ⟨th₁, hth₁, hkey, hbr⟩ := inv.calls_ok cid c hc
    rw [hlead, hth] at hth₁
    cases hth₁
    have hrun : c.val = none ∧ c.err = some .sentinelLeaderPanicked ∧
        c.done = false ∧ th.ran = false ∧ (c.key, cid) ∈ s.m := by
      rcases hbr with ⟨hp, h2, h3, h4, h5, h6⟩ | ⟨hp, _⟩ | ⟨hp, _⟩ |
        ⟨b, hp, _⟩ | ⟨hp, _⟩ | ⟨hp, _⟩
      · exact ⟨h2, h3, h4, h5, h6⟩
      all_goals rw [hph] at hp
      all_goals exact Phase.noConfusion hp
    obtain ⟨hval, herr, hdone, hranf, hmem⟩ := hrun
    refine ⟨inv.nodupKeys, inv.mValid, ?_, ?_⟩
    · intro cid' c₂ hc₂
      replace hc₂ : s.calls[cid']? = some c₂ := hc₂
      by_cases hcc : cid' = cid
      · subst hcc
        rw [hc] at hc₂
        cases hc₂
        refine ⟨{ th with phase := .panicking cid', ran := true }, ?_, hkey, ?_⟩
        · show (s.threads.set t _)[c.leader]? = _
          rw [hlead]
          exact get_set_same hth
        · exact Or.inr (Or.inr (Or.inl ⟨rfl, hout, hval, herr, hdone, rfl, hmem⟩))
      · have hco := inv.calls_ok cid' c₂ hc₂
        obtain ⟨th₁', hth₁', hl₁'⟩ := leadsTo_of_callOk hco
        by_cases hl2 : c₂.leader = t
        · exfalso
          rw [hl2, hth] at hth₁'
          cases hth₁'
          rw [hph] at hl₁'
          exact hcc (Eq.symm hl₁')
        · refine callOk_of_eq hco rfl ?_
          show (s.threads.set t _)[c₂.leader]? = _
          rw [get_set_diff (Ne.symm hl2)]
    · intro t' th' hth'
      replace hth' : (s.threads.set t _)[t']? = some th' := hth'
      by_cases heq : t' = t
      · subst heq
        rw [get_set_same hth] at hth'
        cases hth'
        refine ⟨fun hst => Phase.noConfusion hst,
                fun cid' hw => Phase.noConfusion hw,
                fun cid' v' e' hd => Phase.noConfusion hd, ?_⟩
        intro cid' hl
        have hcc : cid = cid' := hl
        subst hcc
        exact ⟨c, hc, hlead⟩
      · rw [get_set_diff (Ne.symm heq)] at hth'
        exact threadOk_of_calls_mono (fun i x hx => hx) (inv.threads_ok t' th' hth')
  | wgDoneOk t th cid c hth hph hc =>
    have hlt : leadsTo th.phase cid := by rw [hph]; exact rfl
    obtain ⟨c', hc', hlead⟩ := (inv.threads_ok t th hth).2.2.2 cid hlt
    rw [hc] at hc'
    cases hc'
    obtain ⟨th₁, hth₁, hkey, hbr⟩ := inv.calls_ok cid c hc
    rw [hlead, hth] at hth₁
    cases hth₁
    have hstr : th.outcome = .returns c.val c.err ∧ c.done = false ∧
        th.ran = true ∧ (c.key, cid) ∈ s.m := by
      rcases hbr with ⟨hp, _⟩ | ⟨hp, h2, h3, h4, h5⟩ | ⟨hp, _⟩ |
        ⟨b, hp, _⟩ | ⟨hp, _⟩ | ⟨hp, _⟩
      · rw [hph] at hp; exact Phase.noConfusion hp
      · exact ⟨h2, h3, h4, h5⟩
      all_goals rw [hph] at hp
      all_goals exact Phase.noConfusion hp
    obtain ⟨houtc, hdone, hranT, hmem⟩ := hstr
    refine ⟨?_, ?_, ?_, ?_⟩
    · exact inv.nodupKeys
    · intro k cid' hmem'
      obtain ⟨c₂, hc₂, hckey⟩ := inv.mValid k cid' hmem'
      by_cases hcc : cid' = cid
      · subst hcc
        rw [hc] at hc₂
        cases hc₂
        refine ⟨{ c with done := true }, ?_, hckey⟩
        show (s.calls.set cid' _)[cid']? = _
        exact get_set_same hc
      · refine ⟨c₂, ?_, hckey⟩
        show (s.calls.set cid _)[cid']? = _
        rw [get_set_diff (Ne.symm hcc)]
        exact hc₂
    · intro cid' c₂ hc₂
      replace hc₂ : (s.calls.set cid _)[cid']? = some c₂ := hc₂
      by_cases hcc : cid' = cid
      · subst hcc
        rw [get_set_same hc] at hc₂
        cases hc₂
        refine ⟨{ th with phase := .deferring cid' false }, ?_, hkey, ?_⟩
        · show (s.threads.set t _)[c.leader]? = _
          rw [hlead]
          exact get_set_same hth
        · exact Or.inr (Or.inr (Or.inr (Or.inl
            ⟨false, rfl, rfl, hranT, hmem, houtc⟩)))
      · rw [get_set_diff (Ne.symm hcc)] at hc₂
        have hco := inv.calls_ok cid' c₂ hc₂
        obtain ⟨th₁', hth₁', hl₁'⟩ := leadsTo_of_callOk hco
        by_cases hl2 : c₂.leader = t
        · exfalso
          rw [hl2, hth] at hth₁'
          cases hth₁'
          rw [hph] at hl₁'
          exact hcc (Eq.symm hl₁')
        · refine callOk_of_eq hco rfl ?_
          show (s.threads.set t _)[c₂.leader]? = _
          rw [get_set_diff (Ne.symm hl2)]
    · intro t' th' hth'
      replace hth' : (s.threads.set t _)[t']? = some th' := hth'
      by_cases heq : t' = t
      · subst heq
        rw [get_set_same hth] at hth'
        cases hth'
        refine ⟨fun hst => Phase.noConfusion hst,
                fun cid' hw => Phase.noConfusion hw,
                fun cid' v' e' hd => Phase.noConfusion hd, ?_⟩
        intro cid' hl
        have hcc : cid = cid' := hl
        subst hcc
        refine ⟨{ c with done := true }, ?_, hlead⟩
        show (s.calls.set cid _)[cid]? = _
        exact get_set_same hc
      · rw [get_set_diff (Ne.symm heq)] at hth'
        obtain ⟨h1, h2, h3, h4⟩ := inv.threads_ok t' th' hth'
        refine ⟨h1, ?_, ?_, ?_⟩
        · intro cid' hw
          obtain ⟨hr, c₃, hc₃⟩ := h2 cid' hw
          by_cases hcc : cid' = cid
          · subst hcc
            refine ⟨hr, { c with done := true }, ?_⟩
            show (s.calls.set cid' _)[cid']? = _
            exact get_set_same hc
          · refine ⟨hr, c₃, ?_⟩
            show (s.calls.set cid _)[cid']? = _
            rw [get_set_diff (Ne.symm hcc)]
            exact hc₃
        · intro cid' v' e' hd
          obtain ⟨hr, c₃, hc₃, hd₃, hv₃, he₃⟩ := h3 cid' v' e' hd
          by_cases hcc : cid' = cid
          · subst hcc
            rw [hc] at hc₃
            cases hc₃
            rw [hdone] at hd₃
            exact Bool.noConfusion hd₃
          · refine ⟨hr, c₃, ?_, hd₃, hv₃, he₃⟩
            show (s.calls.set cid _)[cid']? = _
            rw [get_set_diff (Ne.symm hcc)]
            exact hc₃
        · intro cid' hl
          obtain ⟨c₃, hc₃, hcl₃⟩ := h4 cid' hl
          by_cases hcc : cid' = cid
          · subst hcc
            rw [hc] at hc₃
            cases hc₃
            rw [hlead] at hcl₃
            exact absurd hcl₃.symm heq
          · refine ⟨c₃, ?_, hcl₃⟩
            show (s.calls.set cid _)[cid']? = _
            rw [get_set_diff (Ne.symm hcc)]
            exact hc₃
  | wgDonePanic t th cid c hth hph hc =>
    have hlt : leadsTo th.phase cid := by rw [hph]; exact rfl
    obtain ⟨c', hc', hlead⟩ := (inv.threads_ok t th hth).2.2.2 cid hlt
    rw [hc] at hc'
    cases hc'
    obtain ⟨th₁, hth₁, hkey, hbr⟩ := inv.calls_ok cid c hc
    rw [hlead, hth] at hth₁
    cases hth₁
    have hstr : th.outcome = .panics ∧ c.val = none ∧
        c.err = some .sentinelLeaderPanicked ∧ c.done = false ∧
        th.ran = true ∧ (c.key, cid) ∈ s.m := by
      rcases hbr with ⟨hp, _⟩ | ⟨hp, _⟩ | ⟨hp, h2, h3, h4, h5, h6, h7⟩ |
        ⟨b, hp, _⟩ | ⟨hp, _⟩ | ⟨hp, _⟩
      · rw [hph] at hp; exact Phase.noConfusion hp
      · rw [hph] at hp; exact Phase.noConfusion hp
      · exact ⟨h2, h3, h4, h5, h6, h7⟩
      all_goals rw [hph] at hp
      all_goals exact Phase.noConfusion hp
    obtain ⟨hout2, hval, herr, hdone, hranT, hmem⟩ := hstr
    refine ⟨?_, ?_, ?_, ?_⟩
    · exact inv.nodupKeys
    · intro k cid' hmem'
      obtain ⟨c₂, hc₂, hckey⟩ := inv.mValid k cid' hmem'
      by_cases hcc : cid' = cid
      · subst hcc
        rw [hc] at hc₂
        cases hc₂
        refine ⟨{ c with done := true }, ?_, hckey⟩
        show (s.calls.set cid' _)[cid']? = _
        exact get_set_same hc
      · refine ⟨c₂, ?_, hckey⟩
        show (s.calls.set cid _)[cid']? = _
        rw [get_set_diff (Ne.symm hcc)]
        exact hc₂
    · intro cid' c₂ hc₂
      replace hc₂ : (s.calls.set cid _)[cid']? = some c₂ := hc₂
      by_cases hcc : cid' = cid
      · subst hcc
        rw [get_set_same hc] at hc₂
        cases hc₂
        refine ⟨{ th with phase := .deferring cid' true }, ?_, hkey, ?_⟩
        · show (s.threads.set t _)[c.leader]? = _
          rw [hlead]
          exact get_set_same hth
        · exact Or.inr (Or.inr (Or.inr (Or.inl
            ⟨true, rfl, rfl, hranT, hmem, hout2, hval, herr⟩)))
      · rw [get_set_diff (Ne.symm hcc)] at hc₂
        have hco := inv.calls_ok cid' c₂ hc₂
        obtain ⟨th₁', hth₁', hl₁'⟩ := leadsTo_of_callOk hco
        by_cases hl2 : c₂.leader = t
        · exfalso
          rw [hl2, hth] at hth₁'
          cases hth₁'
          rw [hph] at hl₁'
          exact hcc (Eq.symm hl₁')
        · refine callOk_of_eq hco rfl ?_
          show (s.threads.set t _)[c₂.leader]? = _
          rw [get_set_diff (Ne.symm hl2)]
    · intro t' th' hth'
      replace hth' : (s.threads.set t _)[t']? = some th' := hth'
      by_cases heq : t' = t
      · subst heq
        rw [get_set_same hth] at hth'
        cases hth'
        refine ⟨fun hst => Phase.noConfusion hst,
                fun cid' hw => Phase.noConfusion hw,
                fun cid' v' e' hd => Phase.noConfusion hd, ?_⟩
        intro cid' hl
        have hcc : cid = cid' := hl
        subst hcc
        refine ⟨{ c with done := true }, ?_, hlead⟩
        show (s.calls.set cid _)[cid]? = _
        exact get_set_same hc
      · rw [get_set_diff (Ne.symm heq)] at hth'
        obtain ⟨h1, h2, h3, h4⟩ := inv.threads_ok t' th' hth'
        refine ⟨h1, ?_, ?_, ?_⟩
        · intro cid' hw
          obtain ⟨hr, c₃, hc₃⟩ := h2 cid' hw
          by_cases hcc : cid' = cid
          · subst hcc
            refine ⟨hr, { c with done := true }, ?_⟩
            show (s.calls.set cid' _)[cid']? = _
            exact get_set_same hc
          · refine ⟨hr, c₃, ?_⟩
            show (s.calls.set cid _)[cid']? = _
            rw [get_set_diff (Ne.symm hcc)]
            exact hc₃
        · intro cid' v' e' hd
          obtain ⟨hr, c₃, hc₃, hd₃, hv₃, he₃⟩ := h3 cid' v' e' hd
          by_cases hcc : cid' = cid
          · subst hcc
            rw [hc] at hc₃
            cases hc₃
            rw [hdone] at hd₃
            exact Bool.noConfusion hd₃
          · refine ⟨hr, c₃, ?_, hd₃, hv₃, he₃⟩
            show (s.calls.set cid _)[cid']? = _
            rw [get_set_diff (Ne.symm hcc)]
            exact hc₃
        · intro cid' hl
          obtain ⟨c₃, hc₃, hcl₃⟩ := h4 cid' hl
          by_cases hcc : cid' = cid
          · subst hcc
            rw [hc] at hc₃
            cases hc₃
            rw [hlead] at hcl₃
            exact absurd hcl₃.symm heq
          · refine ⟨c₃, ?_, hcl₃⟩
            show (s.calls.set cid _)[cid']? = _
            rw [get_set_diff (Ne.symm hcc)]
            exact hc₃
  | removeOk t th cid c hth hph hc =>
    have hlt : leadsTo th.phase cid := by rw [hph]; exact rfl
    obtain ⟨c', hc', hlead⟩ := (inv.threads_ok t th hth).2.2.2 cid hlt
    rw [hc] at hc'
    cases hc'
    obtain ⟨th₁, hth₁, hkey, hbr⟩ := inv.calls_ok cid c hc
    rw [hlead, hth] at hth₁
    cases hth₁
    have hstr : c.done = true ∧ th.ran = true ∧ (c.key, cid) ∈ s.m ∧
        th.outcome = .returns c.val c.err := by
      rcases hbr with ⟨hp, _⟩ | ⟨hp, _⟩ | ⟨hp, _⟩ |
        ⟨b, hp, h2, h3, h4, h5⟩ | ⟨hp, _⟩ | ⟨hp, _⟩
      · rw [hph] at hp; exact Phase.noConfusion hp
      · rw [hph] at hp; exact Phase.noConfusion hp
      · rw [hph] at hp; exact Phase.noConfusion hp
      · rw [hph] at hp
        obtain ⟨-, hb⟩ := Phase.deferring.inj hp
        subst hb
        exact ⟨h2, h3, h4, h5⟩
      · rw [hph] at hp; exact Phase.noConfusion hp
      · rw [hph] at hp; exact Phase.noConfusion hp
    obtain ⟨hdone, hranT, hmem, houtc⟩ := hstr
    refine ⟨?_, ?_, ?_, ?_⟩
    · exact List.Nodup.sublist ((List.eraseP_sublist _).map Prod.fst) inv.nodupKeys
    · intro k cid' hmem'
      exact inv.mValid k cid' ((List.eraseP_sublist _).mem hmem')
    · intro cid' c₂ hc₂
      replace hc₂ : s.calls[cid']? = some c₂ := hc₂
      by_cases hcc : cid' = cid
      · subst hcc
        rw [hc] at hc₂
        cases hc₂
        refine ⟨{ th with phase := .doneLeader cid' c.val c.err }, ?_, hkey, ?_⟩
        · show (s.threads.set t _)[c.leader]? = _
          rw [hlead]
          exact get_set_same hth
        · refine Or.inr (Or.inr (Or.inr (Or.inr (Or.inl
            ⟨rfl, houtc, hdone, hranT, ?_⟩))))
          intro ent hent habs
          have hkne := eraseP_key_not_mem inv.nodupKeys hent
          have hmem2 : ent ∈ s.m := (List.eraseP_sublist _).mem hent
          obtain ⟨c₄, hc₄, hkey₄⟩ := inv.mValid ent.1 cid' (by
            rw [← habs]
            simpa using hmem2)
          rw [hc] at hc₄
          cases hc₄
          exact hkne (by rw [hkey]; exact hkey₄.symm)
      · have hco := inv.calls_ok cid' c₂ hc₂
        obtain ⟨th₁', hth₁', hl₁'⟩ := leadsTo_of_callOk hco
        by_cases hl2 : c₂.leader = t
        · exfalso
          rw [hl2, hth] at hth₁'
          cases hth₁'
          rw [hph] at hl₁'
          exact hcc (Eq.symm hl₁')
        · have hmemT : ∀ kk, (kk, cid') ∈ s.m →
              (kk, cid') ∈ s.m.eraseP (fun ent => ent.1 == th.key) := by
            intro kk hkk
            refine mem_eraseP_of_ne hkk ?_
            intro hke
            have hke' : kk = th.key := hke
            subst hke'
            exact hcc (mem_keys_unique inv.nodupKeys hkk (by rw [hkey]; exact hmem))
          obtain ⟨th₁'', hth₁'', hkey'', hbr''⟩ := hco
          refine ⟨th₁'', ?_, hkey'', ?_⟩
          · show (s.threads.set t _)[c₂.leader]? = _
            rw [get_set_diff (Ne.symm hl2)]
            exact hth₁''
          · rcases hbr'' with ⟨hp, h2, h3, h4, h5, h6⟩ | ⟨hp, h2, h3, h4, h5⟩ |
              ⟨hp, h2, h3, h4, h5, h6, h7⟩ | ⟨b, hp, h2, h3, h4, h5⟩ |
              ⟨hp, h2, h3, h4, h5⟩ | ⟨hp, h2, h3, h4, h5, h6, h7⟩
            · exact Or.inl ⟨hp, h2, h3, h4, h5, hmemT _ h6⟩
            · exact Or.inr (Or.inl ⟨hp, h2, h3, h4, hmemT _ h5⟩)
            · exact Or.inr (Or.inr (Or.inl ⟨hp, h2, h3, h4, h5, h6, hmemT _ h7⟩))
            · exact Or.inr (Or.inr (Or.inr (Or.inl ⟨b, hp, h2, h3, hmemT _ h4, h5⟩)))
            · exact Or.inr (Or.inr (Or.inr (Or.inr (Or.inl ⟨hp, h2, h3, h4,
                fun ent hent => h5 ent ((List.eraseP_sublist _).mem hent)⟩))))
            · exact Or.inr (Or.inr (Or.inr (Or.inr (Or.inr ⟨hp, h2, h3, h4, h5, h6,
                fun ent hent => h7 ent ((List.eraseP_sublist _).mem hent)⟩))))
    · intro t' th' hth'
      replace hth' : (s.threads.set t _)[t']? = some th' := hth'
      by_cases heq : t' = t
      · subst heq
        rw [get_set_same hth] at hth'
        cases hth'
        refine ⟨fun hst => Phase.noConfusion hst,
                fun cid' hw => Phase.noConfusion hw,
                fun cid' v' e' hd => Phase.noConfusion hd, ?_⟩
        intro cid' hl
        have hcc : cid = cid' := hl
        subst hcc
        exact ⟨c, hc, hlead⟩
      · rw [get_set_diff (Ne.symm heq)] at hth'
        exact threadOk_of_calls_mono (fun i x hx => hx) (inv.threads_ok t' th' hth')
  | removePanic t th cid hth hph =>
    have hlt : leadsTo th.phase cid := by rw [hph]; exact rfl
    obtain ⟨c, hc, hlead⟩ := (inv.threads_ok t th hth).2.2.2 cid hlt
    obtain ⟨th₁, hth₁, hkey, hbr⟩ := inv.calls_ok cid c hc
    rw [hlead, hth] at hth₁
    cases hth₁
    have hstr : c.done = true ∧ th.ran = true ∧ (c.key, cid) ∈ s.m ∧
        th.outcome = .panics ∧ c.val = none ∧
        c.err = some .sentinelLeaderPanicked := by
      rcases hbr with ⟨hp, _⟩ | ⟨hp, _⟩ | ⟨hp, _⟩ |
        ⟨b, hp, h2, h3, h4, h5⟩ | ⟨hp, _⟩ | ⟨hp, _⟩
      · rw [hph] at hp; exact Phase.noConfusion hp
      · rw [hph] at hp; exact Phase.noConfusion hp
      · rw [hph] at hp; exact Phase.noConfusion hp
      · rw [hph] at hp
        obtain ⟨-, hb⟩ := Phase.deferring.inj hp
        subst hb
        exact ⟨h2, h3, h4, h5.1, h5.2.1, h5.2.2⟩
      · rw [hph] at hp; exact Phase.noConfusion hp
      · rw [hph] at hp; exact Phase.noConfusion hp
    obtain ⟨hdone, hranT, hmem, hout2, hval, herr⟩ := hstr
    refine ⟨?_, ?_, ?_, ?_⟩
    · exact List.Nodup.sublist ((List.eraseP_sublist _).map Prod.fst) inv.nodupKeys
    · intro k cid' hmem'
      exact inv.mValid k cid' ((List.eraseP_sublist _).mem hmem')
    · intro cid' c₂ hc₂
      replace hc₂ : s.calls[cid']? = some c₂ := hc₂
      by_cases hcc : cid' = cid
      · subst hcc
        rw [hc] at hc₂
        cases hc₂
        refine ⟨{ th with phase := .panickedOut cid' }, ?_, hkey, ?_⟩
        · show (s.threads.set t _)[c.leader]? = _
          rw [hlead]
          exact get_set_same hth
        · refine Or.inr (Or.inr (Or.inr (Or.inr (Or.inr
            ⟨rfl, hout2, hval, herr, hdone, hranT, ?_⟩))))
          intro ent hent habs
          have hkne := eraseP_key_not_mem inv.nodupKeys hent
          have hmem2 : ent ∈ s.m := (List.eraseP_sublist _).mem hent
          obtain ⟨c₄, hc₄, hkey₄⟩ := inv.mValid ent.1 cid' (by
            rw [← habs]
            simpa using hmem2)
          rw [hc] at hc₄
          cases hc₄
          exact hkne (by rw [hkey]; exact hkey₄.symm)
      · have hco := inv.calls_ok cid' c₂ hc₂
        obtain ⟨th₁', hth₁', hl₁'⟩ := leadsTo_of_callOk hco
        by_cases hl2 : c₂.leader = t
        · exfalso
          rw [hl2, hth] at hth₁'
          cases hth₁'
          rw [hph] at hl₁'
          exact hcc (Eq.symm hl₁')
        · have hmemT : ∀ kk, (kk, cid') ∈ s.m →
              (kk, cid') ∈ s.m.eraseP (fun ent => ent.1 == th.key) := by
            intro kk hkk
            refine mem_eraseP_of_ne hkk ?_
            intro hke
            have hke' : kk = th.key := hke
            subst hke'
            exact hcc (mem_keys_unique inv.nodupKeys hkk (by rw [hkey]; exact hmem))
          obtain ⟨th₁'', hth₁'', hkey'', hbr''⟩ := hco
          refine ⟨th₁'', ?_, hkey'', ?_⟩
          · show (s.threads.set t _)[c₂.leader]? = _
            rw [get_set_diff (Ne.symm hl2)]
            exact hth₁''
          · rcases hbr'' with ⟨hp, h2, h3, h4, h5, h6⟩ | ⟨hp, h2, h3, h4, h5⟩ |
              ⟨hp, h2, h3, h4, h5, h6, h7⟩ | ⟨b, hp, h2, h3, h4, h5⟩ |
              ⟨hp, h2, h3, h4, h5⟩ | ⟨hp, h2, h3, h4, h5, h6, h7⟩
            · exact Or.inl ⟨hp, h2, h3, h4, h5, hmemT _ h6⟩
            · exact Or.inr (Or.inl ⟨hp, h2, h3, h4, hmemT _ h5⟩)
            · exact Or.inr (Or.inr (Or.inl ⟨hp, h2, h3, h4, h5, h6, hmemT _ h7⟩))
            · exact Or.inr (Or.inr (Or.inr (Or.inl ⟨b, hp, h2, h3, hmemT _ h4, h5⟩)))
            · exact Or.inr (Or.inr (Or.inr (Or.inr (Or.inl ⟨hp, h2, h3, h4,
                fun ent hent => h5 ent ((List.eraseP_sublist _).mem hent)⟩))))
            · exact Or.inr (Or.inr (Or.inr (Or.inr (Or.inr ⟨hp, h2, h3, h4, h5, h6,
                fun ent hent => h7 ent ((List.eraseP_sublist _).mem hent)⟩))))
    · intro t' th' hth'
      replace hth' : (s.threads.set t _)[t']? = some th' := hth'
      by_cases heq : t' = t
      · subst heq
        rw [get_set_same hth] at hth'
        cases hth'
        refine ⟨fun hst => Phase.noConfusion hst,
                fun cid' hw => Phase.noConfusion hw,
                fun cid' v' e' hd => Phase.noConfusion hd, ?_⟩
        intro cid' hl
        have hcc : cid = cid' := hl
        subst hcc
        exact ⟨c, hc, hlead⟩
      · rw [get_set_diff (Ne.symm heq)] at hth'
        exact threadOk_of_calls_mono (fun i x hx => hx) (inv.threads_ok t' th' hth')
  | waitRet t th cid c hth hph hc hd =>
    have hwran : th.ran = false := ((inv.threads_ok t th hth).2.1 cid hph).1
    refine ⟨inv.nodupKeys, inv.mValid, ?_, ?_⟩
    · intro cid' c₂ hc₂
      replace hc₂ : s.calls[cid']? = some c₂ := hc₂
      have hco := inv.calls_ok cid' c₂ hc₂
      obtain ⟨th₁', hth₁', hl₁'⟩ := leadsTo_of_callOk hco
      by_cases hl2 : c₂.leader = t
      · exfalso
        rw [hl2, hth] at hth₁'
        cases hth₁'
        rw [hph] at hl₁'
        exact hl₁'.elim
      · refine callOk_of_eq hco rfl ?_
        show (s.threads.set t _)[c₂.leader]? = _
        rw [get_set_diff (Ne.symm hl2)]
    · intro t' th' hth'
      replace hth' : (s.threads.set t _)[t']? = some th' := hth'
      by_cases heq : t' = t
      · subst heq
        rw [get_set_same hth] at hth'
        cases hth'
        refine ⟨fun hst => Phase.noConfusion hst,
                fun cid' hw => Phase.noConfusion hw, ?_,
                fun cid' hl => hl.elim⟩
        intro cid' v' e' hdf
        obtain ⟨hc1, hv1, he1⟩ := Phase.doneFollower.inj hdf
        subst hc1
        subst hv1
        subst he1
        exact ⟨hwran, c, hc, hd, rfl, rfl⟩
      · rw [get_set_diff (Ne.symm heq)] at hth'
        exact threadOk_of_calls_mono (fun i x hx => hx) (inv.threads_ok t' th' hth')

theorem inv_init (ths : List (Key × LoaderOutcome)) : Inv (initState ths) := by
  refine ⟨List.nodup_nil, ?_, ?_, ?_⟩
  · intro k cid hmem
    simp [initState] at hmem
  · intro cid c hc
    simp [initState] at hc
  · intro t th hth
    simp only [initState, List.getElem?_map] at hth
    cases hp : ths[t]? with
    | none => rw [hp] at hth; cases hth
    | some p =>
      rw [hp] at hth
      cases hth
      exact ⟨fun _ => rfl, fun cid hw => Phase.noConfusion hw,
             fun cid v e hd => Phase.noConfusion hd, fun cid hl => hl.elim⟩

theorem reachable_inv {ths : List (Key × LoaderOutcome)} {s : GState}
    (hr : Reachable ths s) : Inv s := by
  induction hr with
  | refl => exact inv_init ths
  | tail _ hstep ih => exact inv_step ih hstep

/-- C1: in every reachable flight-group state, at most one call entry
exists per key (the map's keys are duplicate-free); a `Do` call that found
an existing call for its key (a follower, in phase `waiting` or
`doneFollower`) never executes its own loader (`ran = false`); and when
such a follower returns, it carries exactly the stored value and error of
the call it waited on — the ones the leader's single loader execution
produced (or the pre-seeded sentinel if the leader panicked) — with the
call's completion signal (`done`) having fired. -/
theorem C1_follower_no_reexecution {ths : List (Key × LoaderOutcome)}
    {s : GState} (hr : Reachable ths s) :
    (s.m.map Prod.fst).Nodup ∧
    (∀ (t : Nat) (th : Thread) (cid : Nat), s.threads[t]? = some th →
      th.phase = .waiting cid → th.ran = false) ∧
    (∀ (t : Nat) (th : Thread) (cid : Nat) (v : Option Nat) (e : Option FErr),
      s.threads[t]? = some th →
      th.phase = .doneFollower cid v e →
      th.ran = false ∧
      ∃ c lth, s.calls[cid]? = some c ∧ c.done = true ∧ c.val = v ∧
        c.err = e ∧ s.threads[c.leader]? = some lth ∧ lth.ran = true ∧
        (lth.outcome = .returns v e ∨
         (lth.outcome = .panics ∧ v = none ∧
          e = some .sentinelLeaderPanicked))) := by
  have inv := reachable_inv hr
  refine ⟨inv.nodupKeys, ?_, ?_⟩
  · intro t th cid hth hw
    exact ((inv.threads_ok t th hth).2.1 cid hw).1
  · intro t th cid v e hth hdf
    obtain ⟨hranf, c, hc, hdone, hval, herr⟩ :=
      (inv.threads_ok t th hth).2.2.1 cid v e hdf
    refine ⟨hranf, c, ?_⟩
    obtain ⟨lth, hlth, hkeyl, hbr⟩ := inv.calls_ok cid c hc
    rcases hbr with ⟨hp, h2, h3, h4, h5, h6⟩ | ⟨hp, h2, h3, h4, h5⟩ |
      ⟨hp, h2, h3, h4, h5, h6, h7⟩ | ⟨b, hp, h2, h3, h4, h5⟩ |
      ⟨hp, h2, h3, h4, h5⟩ | ⟨hp, h2, h3, h4, h5, h6, h7⟩
    · rw [hdone] at h4; exact Bool.noConfusion h4
    · rw [hdone] at h3; exact Bool.noConfusion h3
    · rw [hdone] at h5; exact Bool.noConfusion h5
    · cases b
      · have h5' : lth.outcome = .returns c.val c.err := h5
        rw [hval, herr] at h5'
        exact ⟨lth, hc, hdone, hval, herr, hlth, h3, Or.inl h5'⟩
      · have h5' : lth.outcome = .panics ∧ c.val = none ∧
            c.err = some .sentinelLeaderPanicked := h5
        obtain ⟨ho, hv, he⟩ := h5'
        exact ⟨lth, hc, hdone, hval, herr, hlth, h3, Or.inr
          ⟨ho, by rw [← hval]; exact hv, by rw [← herr]; exact he⟩⟩
    · rw [hval, herr] at h2
      exact ⟨lth, hc, hdone, hval, herr, hlth, h4, Or.inl h2⟩
    · exact ⟨lth, hc, hdone, hval, herr, hlth, h6, Or.inr
        ⟨h2, by rw [← hval]; exact h3, by rw [← herr]; exact h4⟩⟩

/-- C2: in every reachable flight-group state, any leader that has exited
`Do` — normally (`doneLeader`) or by a propagating panic (`panickedOut`) —
left the call's completion signal fired (`done = true`) and the key's
entry removed from the map; a leader whose loader panicked exits through
the panic path (its loader outcome is `panics`, so its own call stack
propagates the abnormal termination, and it never reaches `doneLeader`),
the call still carries the pre-seeded sentinel error, and every follower
of that call observes exactly the sentinel error and no value. -/
theorem C2_cleanup_on_every_exit {ths : List (Key × LoaderOutcome)}
    {s : GState} (hr : Reachable ths s) :
    (∀ (t : Nat) (th : Thread) (cid : Nat) (v : Option Nat) (e : Option FErr),
      s.threads[t]? = some th →
      th.phase = .doneLeader cid v e →
      th.outcome = .returns v e ∧
      ∃ c, s.calls[cid]? = some c ∧ c.done = true ∧
        (∀ ent ∈ s.m, ent.2 ≠ cid)) ∧
    (∀ (t : Nat) (th : Thread) (cid : Nat), s.threads[t]? = some th →
      th.phase = .panickedOut cid →
      th.outcome = .panics ∧
      ∃ c, s.calls[cid]? = some c ∧ c.done = true ∧ c.val = none ∧
        c.err = some .sentinelLeaderPanicked ∧
        (∀ ent ∈ s.m, ent.2 ≠ cid)) ∧
    (∀ (t : Nat) (th : Thread) (cid : Nat) (v : Option Nat) (e : Option FErr),
      s.threads[t]? = some th →
      th.phase = .doneFollower cid v e →
      ∀ (c : Call) (lth : Thread),
        s.calls[cid]? = some c → s.threads[c.leader]? = some lth →
        lth.outcome = .panics →
        v = none ∧ e = some .sentinelLeaderPanicked) := by
  have inv := reachable_inv hr
  refine ⟨?_, ?_, ?_⟩
  · intro t th cid v e hth hdl
    have hlt : leadsTo th.phase cid := by rw [hdl]; exact rfl
    obtain ⟨c, hc, hlead⟩ := (inv.threads_ok t th hth).2.2.2 cid hlt
    obtain ⟨lth, hlth, hkeyl, hbr⟩ := inv.calls_ok cid c hc
    rw [hlead, hth] at hlth
    cases hlth
    rcases hbr with ⟨hp, _⟩ | ⟨hp, _⟩ | ⟨hp, _⟩ | ⟨b, hp, _⟩ |
      ⟨hp, h2, h3, h4, h5⟩ | ⟨hp, _⟩
    · rw [hdl] at hp; exact Phase.noConfusion hp
    · rw [hdl] at hp; exact Phase.noConfusion hp
    · rw [hdl] at hp; exact Phase.noConfusion hp
    · rw [hdl] at hp; exact Phase.noConfusion hp
    · rw [hdl] at hp
      obtain ⟨-, hv, he⟩ := Phase.doneLeader.inj hp
      rw [← hv, ← he] at h2
      exact ⟨h2, c, hc, h3, h5⟩
    · rw [hdl] at hp; exact Phase.noConfusion hp
  · intro t th cid hth hpo
    have hlt : leadsTo th.phase cid := by rw [hpo]; exact rfl
    obtain ⟨c, hc, hlead⟩ := (inv.threads_ok t th hth).2.2.2 cid hlt
    obtain ⟨lth, hlth, hkeyl, hbr⟩ := inv.calls_ok cid c hc
    rw [hlead, hth] at hlth
    cases hlth
    rcases hbr with ⟨hp, _⟩ | ⟨hp, _⟩ | ⟨hp, _⟩ | ⟨b, hp, _⟩ | ⟨hp, _⟩ |
      ⟨hp, h2, h3, h4, h5, h6, h7⟩
    · rw [hpo] at hp; exact Phase.noConfusion hp
    · rw [hpo] at hp; exact Phase.noConfusion hp
    · rw [hpo] at hp; exact Phase.noConfusion hp
    · rw [hpo] at hp; exact Phase.noConfusion hp
    · rw [hpo] at hp; exact Phase.noConfusion hp
    · exact ⟨h2, c, hc, h5, h3, h4, h7⟩
  · intro t th cid v e hth hdf c lth hc hlth hpan
    obtain ⟨hranf, c', hc', hdone, hval, herr⟩ :=
      (inv.threads_ok t th hth).2.2.1 cid v e hdf
    rw [hc] at hc'
    cases hc'
    obtain ⟨lth', hlth', hkeyl, hbr⟩ := inv.calls_ok cid c hc
    rw [hlth] at hlth'
    cases hlth'
    rcases hbr with ⟨hp, h2, h3, h4, h5, h6⟩ | ⟨hp, h2, h3, h4, h5⟩ |
      ⟨hp, h2, h3, h4, h5, h6, h7⟩ | ⟨b, hp, h2, h3, h4, h5⟩ |
      ⟨hp, h2, h3, h4, h5⟩ | ⟨hp, h2, h3, h4, h5, h6, h7⟩
    · rw [hdone] at h4; exact Bool.noConfusion h4
    · rw [hdone] at h3; exact Bool.noConfusion h3
    · rw [hdone] at h5; exact Bool.noConfusion h5
    · cases b
      · have h5' : lth.outcome = .returns c.val c.err := h5
        rw [hpan] at h5'
        exact LoaderOutcome.noConfusion h5'
      · have h5' : lth.outcome = .panics ∧ c.val = none ∧
            c.err = some .sentinelLeaderPanicked := h5
        exact ⟨by rw [← hval]; exact h5'.2.1, by rw [← herr]; exact h5'.2.2⟩
    · rw [hpan] at h2
      exact LoaderOutcome.noConfusion h2
    · exact ⟨by rw [← hval, h3], by rw [← herr, h4]⟩

/-! A concrete two-thread execution where the leader's loader returns
`(some 7, nil)` and a follower attaches to the same key. -/

namespace TraceA

def thsA : List (Key × LoaderOutcome) :=
  [("k", .returns (some 7) none), ("k", .returns (some 9) none)]

def sA0 : GState := initState thsA

def sA1 : GState :=
  { m := [("k", 0)],
    calls := [⟨"k", 0, 1, none, some .sentinelLeaderPanicked, false⟩],
    threads := [⟨"k", .returns (some 7) none, .running 0, false⟩,
                ⟨"k", .returns (some 9) none, .start, false⟩],
    time := 1 }

def sA2 : GState :=
  { sA1 with threads := [⟨"k", .returns (some 7) none, .running 0, false⟩,
                         ⟨"k", .returns (some 9) none, .waiting 0, false⟩] }

def sA3 : GState :=
  { sA2 with
    calls := [⟨"k", 0, 1, some 7, none, false⟩],
    threads := [⟨"k", .returns (some 7) none, .stored 0, true⟩,
                ⟨"k", .returns (some 9) none, .waiting 0, false⟩] }

def sA4 : GState :=
  { sA3 with
    calls := [⟨"k", 0, 1, some 7, none, true⟩],
    threads := [⟨"k", .returns (some 7) none, .deferring 0 false, true⟩,
                ⟨"k", .returns (some 9) none, .waiting 0, false⟩] }

def sA5 : GState :=
  { sA4 with
    threads := [⟨"k", .returns (some 7) none, .deferring 0 false, true⟩,
                ⟨"k", .returns (some 9) none, .doneFollower 0 (some 7) none, false⟩] }

def sA6 : GState :=
  { sA5 with
    m := [],
    threads := [⟨"k", .returns (some 7) none, .doneLeader 0 (some 7) none, true⟩,
                ⟨"k", .returns (some 9) none, .doneFollower 0 (some 7) none, false⟩] }

theorem reachA : Reachable thsA sA6 :=
  (((((Relation.ReflTransGen.refl.tail
      (Step.enterMiss sA0 0 ⟨"k", .returns (some 7) none, .start, false⟩
        rfl rfl rfl)).tail
      (Step.enterHit sA1 1 ⟨"k", .returns (some 9) none, .start, false⟩ 0
        rfl rfl rfl)).tail
      (Step.finishOk sA2 0 ⟨"k", .returns (some 7) none, .running 0, false⟩ 0
        ⟨"k", 0, 1, none, some .sentinelLeaderPanicked, false⟩ (some 7) none
        rfl rfl rfl rfl)).tail
      (Step.wgDoneOk sA3 0 ⟨"k", .returns (some 7) none, .stored 0, true⟩ 0
        ⟨"k", 0, 1, some 7, none, false⟩ rfl rfl rfl)).tail
      (Step.waitRet sA4 1 ⟨"k", .returns (some 9) none, .waiting 0, false⟩ 0
        ⟨"k", 0, 1, some 7, none, true⟩ rfl rfl rfl rfl)).tail
      (Step.removeOk sA5 0 ⟨"k", .returns (some 7) none, .deferring 0 false, true⟩ 0
        ⟨"k", 0, 1, some 7, none, true⟩ rfl rfl rfl)

end TraceA

/-! A concrete two-thread execution where the leader's loader panics and a
follower attaches to the same key. -/

namespace TraceB

def thsB : List (Key × LoaderOutcome) :=
  [("k", .panics), ("k", .returns (some 1) none)]

def sB0 : GState := initState thsB

def sB1 : GState :=
  { m := [("k", 0)],
    calls := [⟨"k", 0, 1, none, some .sentinelLeaderPanicked, false⟩],
    threads := [⟨"k", .panics, .running 0, false⟩,
                ⟨"k", .returns (some 1) none, .start, false⟩],
    time := 1 }

def sB2 : GState :=
  { sB1 with threads := [⟨"k", .panics, .running 0, false⟩,
                         ⟨"k", .returns (some 1) none, .waiting 0, false⟩] }

def sB3 : GState :=
  { sB2 with threads := [⟨"k", .panics, .panicking 0, true⟩,
                         ⟨"k", .returns (some 1) none, .waiting 0, false⟩] }

def sB4 : GState :=
  { sB3 with
    calls := [⟨"k", 0, 1, none, some .sentinelLeaderPanicked, true⟩],
    threads := [⟨"k", .panics, .deferring 0 true, true⟩,
                ⟨"k", .returns (some 1) none, .waiting 0, false⟩] }

def sB5 : GState :=
  { sB4 with
    threads := [⟨"k", .panics, .deferring 0 true, true⟩,
                ⟨"k", .returns (some 1) none,
                 .doneFollower 0 none (some .sentinelLeaderPanicked), false⟩] }

def sB6 : GState :=
  { sB5 with
    m := [],
    threads := [⟨"k", .panics, .panickedOut 0, true⟩,
                ⟨"k", .returns (some 1) none,
                 .doneFollower 0 none (some .sentinelLeaderPanicked), false⟩] }

theorem reachB : Reachable thsB sB6 :=
  (((((Relation.ReflTransGen.refl.tail
      (Step.enterMiss sB0 0 ⟨"k", .panics, .start, false⟩ rfl rfl rfl)).tail
      (Step.enterHit sB1 1 ⟨"k", .returns (some 1) none, .start, false⟩ 0
        rfl rfl rfl)).tail
      (Step.startPanic sB2 0 ⟨"k", .panics, .running 0, false⟩ 0
        rfl rfl rfl)).tail
      (Step.wgDonePanic sB3 0 ⟨"k", .panics, .panicking 0, true⟩ 0
        ⟨"k", 0, 1, none, some .sentinelLeaderPanicked, false⟩ rfl rfl rfl)).tail
      (Step.waitRet sB4 1 ⟨"k", .returns (some 1) none, .waiting 0, false⟩ 0
        ⟨"k", 0, 1, none, some .sentinelLeaderPanicked, true⟩ rfl rfl rfl rfl)).tail
      (Step.removePanic sB5 0 ⟨"k", .panics, .deferring 0 true, true⟩ 0
        rfl rfl)

end TraceB

/-- C1 witness: in the concrete execution `TraceA`, the follower (thread 1)
returned without running its loader, carrying the leader's result
`(some 7, nil)`. -/
theorem C1_follower_no_reexecution_witness :
    ∃ c lth, TraceA.sA6.calls[0]? = some c ∧ c.done = true ∧
      c.val = some 7 ∧ c.err = none ∧
      TraceA.sA6.threads[c.leader]? = some lth ∧ lth.ran = true ∧
      (lth.outcome = .returns (some 7) none ∨
       (lth.outcome = .panics ∧ (some 7 : Option Nat) = none ∧
        (none : Option FErr) = some .sentinelLeaderPanicked)) :=
  ((C1_follower_no_reexecution TraceA.reachA).2.2 1
    ⟨"k", .returns (some 9) none, .doneFollower 0 (some 7) none, false⟩
    0 (some 7) none rfl rfl).2

/-- C2 witness: in the concrete execution `TraceB`, the panicked leader's
call fired its completion signal, its entry was removed, and the follower
observed the pre-seeded sentinel error. -/
theorem C2_cleanup_on_every_exit_witness :
    (∃ c, TraceB.sB6.calls[0]? = some c ∧ c.done = true ∧ c.val = none ∧
      c.err = some .sentinelLeaderPanicked ∧
      ∀ ent ∈ TraceB.sB6.m, ent.2 ≠ 0) ∧
    ((none : Option Nat) = none ∧
     (some FErr.sentinelLeaderPanicked : Option FErr) =
       some .sentinelLeaderPanicked) :=
  ⟨((C2_cleanup_on_every_exit TraceB.reachB).2.1 0
      ⟨"k", .panics, .panickedOut 0, true⟩ 0 rfl rfl).2,
   (C2_cleanup_on_every_exit TraceB.reachB).2.2 1
      ⟨"k", .returns (some 1) none,
       .doneFollower 0 none (some .sentinelLeaderPanicked), false⟩
      0 none (some .sentinelLeaderPanicked) rfl rfl
      ⟨"k", 0, 1, none, some .sentinelLeaderPanicked, true⟩
      ⟨"k", .panics, .panickedOut 0, true⟩ rfl rfl rfl⟩

/-! `Group.Count` and `Group.LongestRunningStartTime`, embedded over the
contents of the map `g.m` (a list of key/call entries).  Timestamps model
`time.Time` as nanoseconds since the epoch: the zero instant is `0`,
`IsZero` is `= 0` and `Before` is `<`.  `time.Now()` is never the zero
instant, so every `created` field set by `Do` is nonzero. -/

namespace Group

/-- singleflight.go lines 76-80: `return int64(len(g.m))`. -/
def Count (m : List (Key × Call)) : Nat := m.length

/-- singleflight.go lines 83-93: iterate over the map entries keeping
`oldest`, replacing it whenever it is still zero or the entry was created
earlier. -/
def LongestRunningStartTime (m : List (Key × Call)) : Nat :=
  m.foldl
    (fun oldest e => if oldest = 0 ∨ e.2.created < oldest then e.2.created
                     else oldest) 0

end Group

theorem foldl_oldest_min (l : List (Key × Call)) (acc : Nat) (hacc : acc ≠ 0)
    (hnz : ∀ e ∈ l, e.2.created ≠ 0) :
    (l.foldl (fun oldest e =>
        if oldest = 0 ∨ e.2.created < oldest then e.2.created else oldest)
        acc = acc ∨
      l.foldl (fun oldest e =>
        if oldest = 0 ∨ e.2.created < oldest then e.2.created else oldest)
        acc ∈ l.map (fun e => e.2.created)) ∧
    l.foldl (fun oldest e =>
        if oldest = 0 ∨ e.2.created < oldest then e.2.created else oldest)
        acc ≤ acc ∧
    ∀ x ∈ l.map (fun e => e.2.created),
      l.foldl (fun oldest e =>
        if oldest = 0 ∨ e.2.created < oldest then e.2.created else oldest)
        acc ≤ x := by
  induction l generalizing acc with
  | nil => simp
  | cons hd tl ih =>
    rw [List.foldl_cons]
    by_cases hlt : hd.2.created < acc
    · rw [if_pos (Or.inr hlt)]
      have hhd : hd.2.created ≠ 0 := hnz hd (List.mem_cons_self _ _)
      obtain ⟨hmem, hle, hbound⟩ :=
        ih hd.2.created hhd (fun e he => hnz e (List.mem_cons_of_mem _ he))
      refine ⟨?_, ?_, ?_⟩
      · rcases hmem with h | h
        · refine Or.inr ?_
          rw [List.map_cons, h]
          exact List.mem_cons_self _ _
        · refine Or.inr ?_
          rw [List.map_cons]
          exact List.mem_cons_of_mem _ h
      · exact Nat.le_trans hle (Nat.le_of_lt hlt)
      · intro x hx
        rw [List.map_cons] at hx
        rcases List.mem_cons.mp hx with h | h
        · rw [h]; exact hle
        · exact hbound x h
    · rw [if_neg (by push_neg; exact ⟨hacc, Nat.le_of_not_lt hlt⟩)]
      obtain ⟨hmem, hle, hbound⟩ :=
        ih acc hacc (fun e he => hnz e (List.mem_cons_of_mem _ he))
      refine ⟨?_, hle, ?_⟩
      · rcases hmem with h | h
        · exact Or.inl h
        · exact Or.inr (by rw [List.map_cons]; exact List.mem_cons_of_mem _ h)
      · intro x hx
        rw [List.map_cons] at hx
        rcases List.mem_cons.mp hx with h | h
        · rw [h]
          exact Nat.le_trans hle (Nat.le_of_not_lt hlt)
        · exact hbound x h

/-- C8: for a flight group whose in-flight calls all carry a nonzero
creation timestamp (as `time.Now()` guarantees), `LongestRunningStartTime`
returns the zero instant and `Count` returns 0 when no call is in flight,
and otherwise returns the minimum creation timestamp among the in-flight
calls. -/
theorem C8_count_and_longest_running (m : List (Key × Call))
    (hnz : ∀ e ∈ m, e.2.created ≠ 0) :
    (m = [] → Group.Count m = 0 ∧ Group.LongestRunningStartTime m = 0) ∧
    (m ≠ [] →
      Group.LongestRunningStartTime m ∈ m.map (fun e => e.2.created) ∧
      ∀ x ∈ m.map (fun e => e.2.created),
        Group.LongestRunningStartTime m ≤ x) := by
  constructor
  · intro hm
    subst hm
    exact ⟨rfl, rfl⟩
  · intro hm
    match m, hm with
    | hd :: tl, _ =>
      have hhd : hd.2.created ≠ 0 := hnz hd (List.mem_cons_self _ _)
      have hfold : Group.LongestRunningStartTime (hd :: tl) =
          tl.foldl (fun oldest e =>
            if oldest = 0 ∨ e.2.created < oldest then e.2.created else oldest)
            hd.2.created := by
        rw [Group.LongestRunningStartTime, List.foldl_cons, if_pos (Or.inl rfl)]
      obtain ⟨hmem, hle, hbound⟩ := foldl_oldest_min tl hd.2.created hhd
        (fun e he => hnz e (List.mem_cons_of_mem _ he))
      constructor
      · rw [hfold, List.map_cons]
        rcases hmem with h | h
        · rw [h]; exact List.mem_cons_self _ _
        · exact List.mem_cons_of_mem _ h
      · intro x hx
        rw [List.map_cons] at hx
        rw [hfold]
        rcases List.mem_cons.mp hx with h | h
        · rw [h]; exact hle
        · exact hbound x h

/-- C8 witness: a group with two in-flight calls created at instants 5 and
3 reports 3 as the longest-running start time; the empty group reports the
zero instant and count 0. -/
theorem C8_count_and_longest_running_witness :
    Group.LongestRunningStartTime
        [("a", ⟨"a", 0, 5, none, none, false⟩),
         ("b", ⟨"b", 1, 3, none, none, false⟩)] ∈
      ([("a", (⟨"a", 0, 5, none, none, false⟩ : Call)),
        ("b", ⟨"b", 1, 3, none, none, false⟩)].map (fun e => e.2.created)) ∧
    (∀ x ∈ ([("a", (⟨"a", 0, 5, none, none, false⟩ : Call)),
        ("b", ⟨"b", 1, 3, none, none, false⟩)].map (fun e => e.2.created)),
      Group.LongestRunningStartTime
        [("a", ⟨"a", 0, 5, none, none, false⟩),
         ("b", ⟨"b", 1, 3, none, none, false⟩)] ≤ x) ∧
    Group.Count ([] : List (Key × Call)) = 0 ∧
    Group.LongestRunningStartTime ([] : List (Key × Call)) = 0 :=
  ⟨((C8_count_and_longest_running _ (by decide)).2 (by decide)).1,
   ((C8_count_and_longest_running _ (by decide)).2 (by decide)).2,
   ((C8_count_and_longest_running ([] : List (Key × Call)) (by decide)).1 rfl).1,
   ((C8_count_and_longest_running ([] : List (Key × Call)) (by decide)).1 rfl).2⟩

end Singleflight

/-!
Part 2: the HTTP peer layer of `http.go`.  Strings that the server parses
are modelled as `List Char` (Go byte slicing on the percent-decoded
`r.URL.Path`); network effects (`RoundTrip`, body reads, `proto.Unmarshal`)
are oracle inputs.
-/

namespace Groupcache

/-- Go errors: opaque leaf errors (`fmt.Errorf` / `errors.Errorf`),
`errors.Wrapf` wrapping, and the three structured error types of http.go —
`BadGroupcacheRequestError` (lines 36-38), `GroupNotFoundError`
(lines 40-42) and `RemoteLoadError` (lines 44-52). -/
inductive GoError where
  | mk (msg : String)
  | wrap (msg : String) (cause : GoError)
  | badRequest (message : String)
  | groupNotFound (group : List Char)
  | remoteLoad (group : String) (key : String) (statusCode : Nat)
      (status : String) (body : Option (List Nat)) (cause : GoError)
deriving DecidableEq, Repr

/-- The `Error()` methods (http.go lines 351-357 and 380-382; pkg/errors
formats a wrap as `msg: cause`). -/
def GoError.message : GoError → String
  | .mk m => m
  | .wrap m c => m ++ ": " ++ c.message
  | .badRequest m => m
  | .groupNotFound g => "group not found: \"" ++ String.mk g ++ "\""
  | .remoteLoad _ _ _ _ _ c => "remote load error: " ++ c.message

/-- `Unwrap()` (http.go lines 384-386 for `RemoteLoadError`; pkg/errors
for a wrap). -/
def GoError.unwrap : GoError → Option GoError
  | .wrap _ c => some c
  | .remoteLoad _ _ _ _ _ c => some c
  | _ => none

def GoError.isRemoteLoad : GoError → Bool
  | .remoteLoad _ _ _ _ _ _ => true
  | _ => false

/-- `pb.GetRequest`: group name and key. -/
structure GetRequest where
  group : String
  key : String
deriving DecidableEq, Repr

/-- `pb.GetResponse`: value bytes and expiration in nanoseconds. -/
structure GetResponse where
  value : List Nat
  expire : Int
deriving DecidableEq, Repr

/-- Outcome of a successful `tr.RoundTrip` together with what reading the
body yields: status code, status text, the bytes successfully read
(`io.Copy` / `io.ReadAll` both read into `copied`), and an optional read
error. -/
structure HttpResponse where
  statusCode : Nat
  status : String
  copied : List Nat
  copyErr : Option GoError
deriving DecidableEq, Repr

namespace HttpGetter

/-- `httpGetter.Get` (http.go lines 292-315).  `rt` is the outcome of
`makeRequest` (transport error or response), `decode` is
`proto.Unmarshal`.  Mirrors the source's order of checks: transport
failure, then non-OK status (body passed best-effort even if the read
errored), then read error, then decode error. -/
def Get (decode : List Nat → Except GoError GetResponse)
    (req : GetRequest) (rt : Except GoError HttpResponse) :
    Except GoError GetResponse :=
  match rt with
  | .error e => .error (.remoteLoad req.group req.key 0 "" none e)
  | .ok res =>
    if res.statusCode ≠ 200 then
      .error (.remoteLoad req.group req.key res.statusCode res.status
        (some res.copied)
        (.mk ("non-OK response code: " ++ toString res.statusCode ++ " " ++
          res.status)))
    else
      match res.copyErr with
      | some e => .error (.remoteLoad req.group req.key res.statusCode
          res.status none (.wrap "reading response body" e))
      | none =>
        match decode res.copied with
        | .error e => .error (.remoteLoad req.group req.key res.statusCode
            res.status (some res.copied) (.wrap "decoding response body" e))
        | .ok out => .ok out

/-- `%s` of a byte slice. -/
def bytesToString (b : List Nat) : String :=
  String.mk (b.map (fun n => Char.ofNat n))

/-- `httpGetter.Remove` (http.go lines 317-332).  Note: unlike `Get`, it
returns the transport error unchanged and builds plain `fmt.Errorf`
errors, never a `RemoteLoadError`. -/
def Remove (_req : GetRequest) (rt : Except GoError HttpResponse) :
    Option GoError :=
  match rt with
  | .error e => some e
  | .ok res =>
    if res.statusCode ≠ 200 then
      match res.copyErr with
      | some _ => some (.mk ("while reading body response: " ++ res.status))
      | none => some (.mk ("server returned status " ++
          toString res.statusCode ++ ": " ++ bytesToString res.copied))
    else none

end HttpGetter

/-- First split of a character list at `'/'`: `none` when no separator
occurs, otherwise the part before the first `'/'` and everything after
it. -/
def breakSlash : List Char → Option (List Char × List Char)
  | [] => none
  | c :: rest =>
    if c = '/' then some ([], rest)
    else (breakSlash rest).map (fun p => (c :: p.1, p.2))

/-- `strings.SplitN(s, "/", 2)`: one part when `s` has no separator,
otherwise exactly two parts split at the first separator. -/
def splitN2 (s : List Char) : List (List Char) :=
  match breakSlash s with
  | none => [s]
  | some (a, b) => [a, b]

/-- Result of the inbound handler, cut at the hand-off points to the
external collaborators: `panicked` for the base-path panic, `handled e`
when the server error hook is invoked with `e` during parsing/lookup,
`removed`/`fetch` when the request is dispatched to the resolved group's
`localRemove`/`Get`. -/
inductive ServeOutcome where
  | panicked (msg : String)
  | handled (e : GoError)
  | removed (group : List Char) (key : List Char)
  | fetch (group : List Char) (key : List Char)
deriving DecidableEq, Repr

/-- `HTTPPool.ServeHTTP` (http.go lines 187-230) up to the dispatch to the
resolved group: base-path check (panic on mismatch), `SplitN(..., "/", 2)`
with the missing-parts error, registry lookup with the group-not-found
error, then DELETE or GET dispatch. -/
def ServeHTTP (basePath : List Char) (path : List Char) (isDelete : Bool)
    (registry : List Char → Bool) : ServeOutcome :=
  if basePath.isPrefixOf path then
    match splitN2 (path.drop basePath.length) with
    | [groupName, key] =>
      if registry groupName then
        if isDelete then .removed groupName key
        else .fetch groupName key
      else .handled (.groupNotFound groupName)
    | _ => .handled (.badRequest ("invalid request URL (missing path parts)"))
  else
    .panicked ("HTTPPool serving unexpected path: " ++ String.mk path)

/-- `DefaultServerErrorHandler` (http.go lines 334-349): type-switch on
the error, `http.Error(w, err.Error(), code)` writes the error text with
the mapped status. -/
def DefaultServerErrorHandler (e : GoError) : Nat × String :=
  match e with
  | .badRequest _ => (400, e.message)
  | .groupNotFound _ => (404, e.message)
  | _ => (500, e.message)

/-- The consistent-hash ring, consumed through its contract only
(`IsEmpty`, `Get`). -/
structure RingModel where
  empty : Bool
  owner : String → String

/-- An `httpGetter` as stored in `p.httpGetters` (only its identity
matters to `PickPeer`). -/
structure Transport where
  baseURL : String
deriving DecidableEq, Repr

/-- The parts of `HTTPPool` that `PickPeer` reads: the local identity,
the ring, and the peer-to-transport mapping (a Go map lookup returning
`none` for an absent peer). -/
structure Pool where
  self : String
  ring : RingModel
  httpGetters : String → Option Transport

/-- `HTTPPool.PickPeer` (http.go lines 175-185). -/
def PickPeer (p : Pool) (key : String) : Option Transport × Bool :=
  if p.ring.empty then (none, false)
  else if p.ring.owner key ≠ p.self then (p.httpGetters (p.ring.owner key), true)
  else (none, false)

/-- `HTTPPoolOptions` (http.go lines 72-98), restricted to the fields the
constructor's defaulting logic touches. -/
structure HTTPPoolOptions where
  basePath : String := ""
  replicas : Nat := 0
deriving DecidableEq, Repr

/-- The observable result of a successful construction. -/
structure PoolState where
  self : String
  basePath : String
  replicas : Nat
  registeredPicker : Bool
deriving DecidableEq, Repr

/-- `NewHTTPPoolOpts` (http.go lines 115-142), with the package-level flag
`httpPoolMade` passed in and returned explicitly; the `panic` on double
construction is the `.error` case; the `RegisterPeerPicker` call on the
success path is recorded as the `registeredPicker` flag. -/
def NewHTTPPoolOpts (httpPoolMade : Bool) (self : String)
    (o : Option HTTPPoolOptions) : Except String (PoolState × Bool) :=
  if httpPoolMade then
    .error ("groupcache: NewHTTPPool must be called only once")
  else
    let opts := o.getD {}
    let bp := if opts.basePath = "" then "/_groupcache/" else opts.basePath
    let reps := if opts.replicas = 0 then 50 else opts.replicas
    .ok ({ self := self, basePath := bp, replicas := reps,
           registeredPicker := true }, true)

theorem breakSlash_none {s : List Char} (h : '/' ∉ s) : breakSlash s = none := by
  induction s with
  | nil => rfl
  | cons c rest ih =>
    rw [List.mem_cons, not_or] at h
    rw [breakSlash, if_neg (fun hc => h.1 hc.symm), ih h.2]
    rfl

theorem breakSlash_append {g k : List Char} (h : '/' ∉ g) :
    breakSlash (g ++ '/' :: k) = some (g, k) := by
  induction g with
  | nil => simp [breakSlash]
  | cons c rest ih =>
    rw [List.mem_cons, not_or] at h
    rw [List.cons_append, breakSlash, if_neg (fun hc => h.1 hc.symm), ih h.2]
    rfl

theorem splitN2_no_sep {s : List Char} (h : '/' ∉ s) : splitN2 s = [s] := by
  rw [splitN2, breakSlash_none h]

theorem splitN2_sep {g k : List Char} (h : '/' ∉ g) :
    splitN2 (g ++ '/' :: k) = [g, k] := by
  rw [splitN2, breakSlash_append h]

theorem isPrefixOf_append (l₁ l₂ : List Char) :
    l₁.isPrefixOf (l₁ ++ l₂) = true :=
  List.isPrefixOf_iff_prefix.mpr (List.prefix_append _ _)

/-- C3: client-side `Get` error classification.  A transport failure
yields a remote-load error with zero status code, no body and the
transport error as cause; a non-success status yields a remote-load error
carrying status code, status text and the (best-effort) raw body; a
success status whose body fails to decode yields a remote-load error
carrying the raw body and the decode failure as cause. -/
theorem C3_get_error_classification (req : GetRequest)
    (decode : List Nat → Except GoError GetResponse) (e : GoError)
    (r1 r2 : HttpResponse) (de : GoError)
    (h1 : r1.statusCode ≠ 200)
    (h2 : r2.statusCode = 200) (h2b : r2.copyErr = none)
    (h2c : decode r2.copied = .error de) :
    HttpGetter.Get decode req (.error e) =
      .error (.remoteLoad req.group req.key 0 "" none e) ∧
    HttpGetter.Get decode req (.ok r1) =
      .error (.remoteLoad req.group req.key r1.statusCode r1.status
        (some r1.copied)
        (.mk ("non-OK response code: " ++ toString r1.statusCode ++ " " ++
          r1.status))) ∧
    HttpGetter.Get decode req (.ok r2) =
      .error (.remoteLoad req.group req.key r2.statusCode r2.status
        (some r2.copied) (.wrap "decoding response body" de)) := by
  refine ⟨rfl, ?_, ?_⟩
  · simp [HttpGetter.Get, h1]
  · simp [HttpGetter.Get, h2, h2b, h2c]

/-- C3 witness: concrete transport-failure, HTTP-500 and undecodable-body
round trips, classified as the claim states. -/
theorem C3_get_error_classification_witness :
    HttpGetter.Get (fun _ => .error (.mk "bad proto")) ⟨"g", "kk"⟩
        (.error (.mk "dial refused")) =
      .error (.remoteLoad "g" "kk" 0 "" none (.mk "dial refused")) ∧
    HttpGetter.Get (fun _ => .error (.mk "bad proto")) ⟨"g", "kk"⟩
        (.ok ⟨500, "500 Internal Server Error", [1, 2], none⟩) =
      .error (.remoteLoad "g" "kk" 500 "500 Internal Server Error"
        (some [1, 2])
        (.mk ("non-OK response code: " ++ toString 500 ++ " " ++
          "500 Internal Server Error"))) ∧
    HttpGetter.Get (fun _ => .error (.mk "bad proto")) ⟨"g", "kk"⟩
        (.ok ⟨200, "200 OK", [3], none⟩) =
      .error (.remoteLoad "g" "kk" 200 "200 OK" (some [3])
        (.wrap "decoding response body" (.mk "bad proto"))) :=
  C3_get_error_classification ⟨"g", "kk"⟩ (fun _ => .error (.mk "bad proto"))
    (.mk "dial refused") ⟨500, "500 Internal Server Error", [1, 2], none⟩
    ⟨200, "200 OK", [3], none⟩ (.mk "bad proto") (by decide) rfl rfl rfl

/-- C4 counterexample: `httpGetter.Remove` does not normalize its errors
into the remote-load shape — a transport failure is returned unchanged and
a non-OK status produces a plain formatted error, refuting the claim that
both `Get` and `Remove` normalize. -/
theorem C4_remove_unwrapped_counterexample :
    HttpGetter.Remove ⟨"g", "k"⟩ (.error (.mk "dial tcp: connection refused")) =
      some (.mk "dial tcp: connection refused") ∧
    GoError.isRemoteLoad (.mk "dial tcp: connection refused") = false ∧
    HttpGetter.Remove ⟨"g", "k"⟩
        (.ok ⟨500, "500 Internal Server Error", [], none⟩) =
      some (.mk ("server returned status " ++ toString 500 ++ ": " ++
        HttpGetter.bytesToString [])) ∧
    GoError.isRemoteLoad (.mk ("server returned status " ++ toString 500 ++
        ": " ++ HttpGetter.bytesToString [])) = false :=
  ⟨rfl, rfl, rfl, rfl⟩

/-- C4 (amended): every error returned by the transport's `Get` is
normalized into the remote-load shape with the underlying cause
retrievable via `Unwrap`; `Remove` does not normalize — it returns the
transport error unchanged. -/
theorem C4_get_errors_normalized (req : GetRequest)
    (decode : List Nat → Except GoError GetResponse)
    (rt : Except GoError HttpResponse) (e te : GoError)
    (h : HttpGetter.Get decode req rt = .error e) :
    (e.isRemoteLoad = true ∧ ∃ cause, e.unwrap = some cause) ∧
    HttpGetter.Remove req (.error te) = some te := by
  refine ⟨?_, rfl⟩
  cases rt with
  | error e0 =>
    simp only [HttpGetter.Get] at h
    cases h
    exact ⟨rfl, e0, rfl⟩
  | ok res =>
    simp only [HttpGetter.Get] at h
    by_cases h200 : res.statusCode = 200
    · rw [if_neg (by simp [h200])] at h
      cases hce : res.copyErr with
      | some e1 =>
        rw [hce] at h
        cases h
        exact ⟨rfl, _, rfl⟩
      | none =>
        rw [hce] at h
        cases hd : decode res.copied with
        | error de =>
          rw [hd] at h
          cases h
          exact ⟨rfl, _, rfl⟩
        | ok out =>
          rw [hd] at h
          exact Except.noConfusion h
    · rw [if_pos h200] at h
      cases h
      exact ⟨rfl, _, rfl⟩

/-- C4 witness: a concrete transport failure through `Get` is a
remote-load error whose cause is retrievable. -/
theorem C4_get_errors_normalized_witness :
    (GoError.isRemoteLoad (.remoteLoad "g" "k" 0 "" none (.mk "dial")) = true ∧
      ∃ cause, GoError.unwrap (.remoteLoad "g" "k" 0 "" none (.mk "dial")) =
        some cause) ∧
    HttpGetter.Remove ⟨"g", "k"⟩ (.error (.mk "x")) = some (.mk "x") :=
  C4_get_errors_normalized ⟨"g", "k"⟩ (fun _ => .error (.mk "bad"))
    (.error (.mk "dial")) (.remoteLoad "g" "k" 0 "" none (.mk "dial"))
    (.mk "x") rfl

/-- C5: a path remainder with fewer than two segments yields the
malformed-request error through the hook; an unresolvable group yields the
group-not-found error through the hook; and the default hook maps
malformed-request to 400, group-not-found to 404 and anything else to 500,
each with the error's text as body. -/
theorem C5_server_error_paths (basePath rest g g2 k : List Char)
    (registry : List Char → Bool) (isDelete : Bool) (msg : String)
    (e : GoError)
    (h1 : '/' ∉ rest)
    (h2 : '/' ∉ g) (h3 : registry g = false)
    (h4 : (∀ m, e ≠ .badRequest m) ∧ ∀ g', e ≠ .groupNotFound g') :
    ServeHTTP basePath (basePath ++ rest) isDelete registry =
      .handled (.badRequest ("invalid request URL (missing path parts)")) ∧
    ServeHTTP basePath (basePath ++ (g ++ '/' :: k)) isDelete registry =
      .handled (.groupNotFound g) ∧
    DefaultServerErrorHandler (.badRequest msg) = (400, msg) ∧
    DefaultServerErrorHandler (.groupNotFound g2) =
      (404, GoError.message (.groupNotFound g2)) ∧
    DefaultServerErrorHandler e = (500, e.message) := by
  refine ⟨?_, ?_, rfl, rfl, ?_⟩
  · rw [ServeHTTP, if_pos (isPrefixOf_append _ _), List.drop_left,
      splitN2_no_sep h1]
  · rw [ServeHTTP, if_pos (isPrefixOf_append _ _), List.drop_left,
      splitN2_sep h2]
    simp [h3]
  · cases e with
    | mk m => rfl
    | wrap m c => rfl
    | badRequest m => exact absurd rfl (h4.1 m)
    | groupNotFound g' => exact absurd rfl (h4.2 g')
    | remoteLoad a b c d f cause => rfl

/-- C5 witness: a one-segment remainder is malformed, an unknown group is
not found, and the default handler maps the three error classes to
400/404/500. -/
theorem C5_server_error_paths_witness :
    ServeHTTP "/_groupcache/".toList ("/_groupcache/".toList ++ "g1".toList)
        false (fun _ => false) =
      .handled (.badRequest ("invalid request URL (missing path parts)")) ∧
    ServeHTTP "/_groupcache/".toList
        ("/_groupcache/".toList ++ ("gy".toList ++ '/' :: "k".toList))
        false (fun _ => false) =
      .handled (.groupNotFound "gy".toList) ∧
    DefaultServerErrorHandler (.badRequest "oops") = (400, "oops") ∧
    DefaultServerErrorHandler (.groupNotFound "zz".toList) =
      (404, GoError.message (.groupNotFound "zz".toList)) ∧
    DefaultServerErrorHandler (.mk "boom") =
      (500, GoError.message (.mk "boom")) :=
  C5_server_error_paths "/_groupcache/".toList "g1".toList "gy".toList
    "zz".toList "k".toList (fun _ => false) false "oops" (.mk "boom")
    (by decide) (by decide) rfl
    ⟨fun m hm => GoError.noConfusion hm, fun g' hg => GoError.noConfusion hg⟩

/-- C6: `PickPeer` returns "no remote peer" exactly when the ring is empty
or the ring's owner for the key is the local identity; otherwise it
returns the transport registered for the chosen peer with `true`; and as a
pure function of the pool and key it is deterministic for a fixed ring. -/
theorem C6_pick_peer (p : Pool) (key : String) :
    (PickPeer p key = (none, false) ↔
      (p.ring.empty = true ∨ p.ring.owner key = p.self)) ∧
    (p.ring.empty = false → p.ring.owner key ≠ p.self →
      PickPeer p key = (p.httpGetters (p.ring.owner key), true)) ∧
    PickPeer p key = PickPeer p key := by
  refine ⟨⟨?_, ?_⟩, ?_, rfl⟩
  · intro hp
    by_cases he : p.ring.empty
    · exact Or.inl he
    · by_cases ho : p.ring.owner key = p.self
      · exact Or.inr ho
      · exfalso
        rw [PickPeer, if_neg (by simp [he]), if_pos ho] at hp
        exact Bool.noConfusion (congrArg Prod.snd hp)
  · intro hor
    rcases hor with he | ho
    · rw [PickPeer, if_pos he]
    · by_cases he : p.ring.empty
      · rw [PickPeer, if_pos he]
      · rw [PickPeer, if_neg (by simp [he]), if_neg (not_not_intro ho)]
  · intro hne hno
    rw [PickPeer, if_neg (by simp [hne]), if_pos hno]

/-- C6 witness: a pool whose ring owns the key at a remote peer returns
that peer's registered transport, and a pool whose ring owns it locally
returns "no remote peer". -/
theorem C6_pick_peer_witness :
    PickPeer ⟨"me", ⟨false, fun _ => "peer1"⟩,
        fun s => if s = "peer1" then some ⟨"peer1/_groupcache/"⟩ else none⟩
      "kk" = (some ⟨"peer1/_groupcache/"⟩, true) ∧
    (PickPeer ⟨"me", ⟨false, fun _ => "me"⟩, fun _ => none⟩ "kk" =
        (none, false)) :=
  ⟨by
    have h := (C6_pick_peer ⟨"me", ⟨false, fun _ => "peer1"⟩,
        fun s => if s = "peer1" then some ⟨"peer1/_groupcache/"⟩ else none⟩
      "kk").2.1 rfl (by decide)
    simpa using h,
   (C6_pick_peer ⟨"me", ⟨false, fun _ => "me"⟩, fun _ => none⟩ "kk").1.mpr
     (Or.inr rfl)⟩

/-- C7: the first Peer Pool construction in a process succeeds, registers
the pool as the peer-picking authority and sets the process flag; any
construction attempted once the flag is set fails fatally with the
double-construction panic and yields no pool. -/
theorem C7_singleton_pool_construction (self self2 : String)
    (o o2 : Option HTTPPoolOptions) :
    (∃ pool, NewHTTPPoolOpts false self o = .ok (pool, true) ∧
      pool.registeredPicker = true) ∧
    NewHTTPPoolOpts true self2 o2 =
      .error ("groupcache: NewHTTPPool must be called only once") :=
  ⟨⟨_, rfl, rfl⟩, rfl⟩

/-- C9: a request whose path does not start with the configured base path
makes the handler panic — the pluggable error hook is never invoked and no
HTTP status is written (the outcome is the `panicked` constructor, not
`handled`). -/
theorem C9_unexpected_path_panics (basePath path : List Char)
    (isDelete : Bool) (registry : List Char → Bool)
    (h : basePath.isPrefixOf path = false) :
    ServeHTTP basePath path isDelete registry =
      .panicked ("HTTPPool serving unexpected path: " ++ String.mk path) ∧
    ∀ e, ServeHTTP basePath path isDelete registry ≠ .handled e := by
  have hmain : ServeHTTP basePath path isDelete registry =
      .panicked ("HTTPPool serving unexpected path: " ++ String.mk path) := by
    rw [ServeHTTP, if_neg (by simp [h])]
  exact ⟨hmain, fun e he => ServeOutcome.noConfusion (hmain ▸ he)⟩

/-- C9 witness: serving `/evil` from a pool with base path
`/_groupcache/` panics. -/
theorem C9_unexpected_path_panics_witness :
    ServeHTTP "/_groupcache/".toList "/evil".toList false (fun _ => true) =
      .panicked ("HTTPPool serving unexpected path: " ++
        String.mk "/evil".toList) ∧
    ∀ e, ServeHTTP "/_groupcache/".toList "/evil".toList false
        (fun _ => true) ≠ .handled e :=
  C9_unexpected_path_panics "/_groupcache/".toList "/evil".toList false
    (fun _ => true) (by decide)

/-- C10: the handler splits the remainder at the first separator only: a
remainder of the form `group/` is served with the empty key (not treated
as malformed), and everything after the first separator — further
separators included — is the key. -/
theorem C10_key_splitting (basePath g k : List Char)
    (registry : List Char → Bool)
    (hg : '/' ∉ g) (hreg : registry g = true) :
    ServeHTTP basePath (basePath ++ (g ++ ['/'])) false registry =
      .fetch g [] ∧
    ServeHTTP basePath (basePath ++ (g ++ '/' :: k)) false registry =
      .fetch g k := by
  constructor
  · rw [ServeHTTP, if_pos (isPrefixOf_append _ _), List.drop_left]
    have hk : g ++ ['/'] = g ++ '/' :: ([] : List Char) := rfl
    rw [hk, splitN2_sep hg]
    simp [hreg]
  · rw [ServeHTTP, if_pos (isPrefixOf_append _ _), List.drop_left,
      splitN2_sep hg]
    simp [hreg]

/-- C10 witness: `/_groupcache/grp/` is served with the empty key, and
`/_groupcache/grp/a/b` is served with key `a/b` (the second separator
stays in the key). -/
theorem C10_key_splitting_witness :
    ServeHTTP "/_groupcache/".toList
        ("/_groupcache/".toList ++ ("grp".toList ++ ['/'])) false
        (fun x => x = "grp".toList) = .fetch "grp".toList [] ∧
    ServeHTTP "/_groupcache/".toList
        ("/_groupcache/".toList ++ ("grp".toList ++ '/' :: "a/b".toList))
        false (fun x => x = "grp".toList) =
      .fetch "grp".toList "a/b".toList :=
  C10_key_splitting "/_groupcache/".toList "grp".toList "a/b".toList
    (fun x => x = "grp".toList) (by decide) (by simp)

end Groupcache
